import Mathlib

/-!
Verification development for the gpu-orchestrator control plane.

The Go source is shallowly embedded: Go `int` becomes `Int`, `float64`
becomes `ℚ` (exact arithmetic; the examples below stay clear of the
float-only corner cases such as 0/0 = NaN), strings stay `String`,
fallible functions return `Except String`.  Go map iteration order is
unspecified; the embedding fixes first-insertion order, and every theorem
proved below is insensitive to that choice (counterexamples use inputs
with a single group).
-/

namespace GpuOrch

/-- `models.GPUInstance` (core/models): a priced candidate.
`time.Duration`/`time.Time` fields unused by the optimizer are omitted. -/
structure GPUInstance where
  provider : String
  instanceType : String
  region : String
  gpuType : String
  gpusPerInstance : Int
  memoryPerGPU : Int
  pricePerHour : ℚ
  spotPrice : ℚ
  availability : ℚ
  interconnectTier : String
  deriving Repr, DecidableEq

/-- `models.Allocation`: one line of a scheduling plan. -/
structure Allocation where
  provider : String
  instanceType : String
  region : String
  count : Int
  spot : Bool
  pricePerHour : ℚ
  estimatedCost : ℚ
  deriving Repr, DecidableEq

/-- `models.JobRequirements`. -/
structure JobRequirements where
  gpus : Int
  gpuFraction : ℚ
  useMIG : Bool
  migProfile : String
  maxGPUsPerNode : Int
  requiresMultiNode : Bool
  gpuMemory : Int
  cpuMemory : Int
  storage : Int
  estimatedHours : ℚ
  framework : String
  executionMode : String
  datasetLocation : String
  deriving Repr, DecidableEq

/-- `models.JobConstraints`.  The Go `*time.Time` deadline is an
`Option Int` (epoch instant); `time.Before` is `<` on the instants. -/
structure JobConstraints where
  maxBudget : ℚ
  deadline : Option Int
  preferredRegions : List String
  allowSpot : Bool
  minReliability : ℚ
  dataLocality : String
  performanceWeight : ℚ
  replicationPolicy : String
  deriving Repr, DecidableEq

/-- `optimizer.Strategy`: an allocation strategy with scoring. -/
structure Strategy where
  allocation : List Allocation
  totalCost : ℚ
  reliability : ℚ
  score : ℚ
  deriving Repr, DecidableEq

/-- The zero value of `Strategy` (Go `var bestStrategy Strategy`). -/
def Strategy.empty : Strategy :=
  { allocation := [], totalCost := 0, reliability := 0, score := 0 }

/-- `parseDatasetLocation` (allocation optimizer): extracts provider and
region from a dataset URI by inspecting only its first five characters. -/
def parseDatasetLocation (uri : String) : String × String :=
  if uri.length < 5 then ("aws", "us-east-1")
  else
    let scheme := uri.take 5
    if scheme = "s3://" then ("aws", "us-east-1")
    else if scheme = "gs://" then ("gcp", "us-central1")
    else if scheme = "az://" then ("azure", "eastus")
    else if scheme = "minio" then ("onprem", "")
    else ("aws", "us-east-1")

/-- C10: the claim as written quantifies over URIs whose *scheme* is not
one of `s3://`, `gs://`, `az://`, `minio://`.  The URI `"minioab"` has
none of those schemes (none is a prefix of it), yet the parser maps it
to on-prem. -/
theorem C10_counterexample :
    (¬ List.isPrefixOf "s3://".data "minioab".data) ∧
    (¬ List.isPrefixOf "gs://".data "minioab".data) ∧
    (¬ List.isPrefixOf "az://".data "minioab".data) ∧
    (¬ List.isPrefixOf "minio://".data "minioab".data) ∧
    parseDatasetLocation "minioab" = ("onprem", "") ∧
    ("onprem", "") ≠ (("aws", "us-east-1") : String × String) := by
  refine ⟨by decide, by decide, by decide, by decide, by decide, by decide⟩

/-- C10 (amended): a URI shorter than five characters, or whose first five
characters are none of `s3://`, `gs://`, `az://`, `minio`, parses to
(aws, us-east-1). -/
theorem C10_amended (uri : String)
    (h : uri.length < 5 ∨
      (uri.take 5 ≠ "s3://" ∧ uri.take 5 ≠ "gs://" ∧
       uri.take 5 ≠ "az://" ∧ uri.take 5 ≠ "minio")) :
    parseDatasetLocation uri = ("aws", "us-east-1") := by
  unfold parseDatasetLocation
  rcases h with h | ⟨h1, h2, h3, h4⟩
  · simp [h]
  · by_cases hlen : uri.length < 5
    · simp [hlen]
    · simp [hlen, h1, h2, h3, h4]

/-- C10 amended, witnessed at the concrete URI `"http://bucket/x"`. -/
theorem C10_amended_witness :
    parseDatasetLocation "http://bucket/x" = ("aws", "us-east-1") :=
  C10_amended "http://bucket/x" (Or.inr ⟨by decide, by decide, by decide, by decide⟩)

/-- Insertion step of the list sort used to model Go's `sort.Slice`:
the comparator is the only behaviour the proofs rely on. -/
def insertB (less : α → α → Bool) (x : α) : List α → List α
  | [] => [x]
  | y :: ys => if less x y then x :: y :: ys else y :: insertB less x ys

/-- Comparison sort modelling `sort.Slice(sorted, less)`. -/
def sortB (less : α → α → Bool) : List α → List α
  | [] => []
  | x :: xs => insertB less x (sortB less xs)

theorem perm_insertB (less : α → α → Bool) (x : α) (l : List α) :
    List.Perm (insertB less x l) (x :: l) := by
  induction l with
  | nil => simp [insertB]
  | cons a as ih =>
    by_cases hc : less x a
    · simp [insertB, hc]
    · simp only [insertB, hc, if_neg, Bool.false_eq_true, not_false_iff]
      exact (List.Perm.cons a ih).trans (List.Perm.swap x a as)

theorem perm_sortB (less : α → α → Bool) (l : List α) :
    List.Perm (sortB less l) l := by
  induction l with
  | nil => simp [sortB]
  | cons a as ih =>
    exact (perm_insertB less a (sortB less as)).trans (List.Perm.cons a ih)

theorem mem_sortB (less : α → α → Bool) (y : α) (l : List α)
    (h : y ∈ sortB less l) : y ∈ l :=
  (perm_sortB less l).mem_iff.mp h

/-- `getMaxNodesForProvider`: provider-specific max nodes per cluster/AZ. -/
def getMaxNodesForProvider (provider : String) : Int :=
  if provider = "aws" then 16
  else if provider = "gcp" then 32
  else if provider = "azure" then 16
  else if provider = "onprem" then 100
  else 8

/-- Character-level splitter modelling Go's `strings.Split(s, sep)` for a
one-character separator (`acc` holds the current field reversed). -/
def splitCharsAux (sep : Char) : List Char → List Char → List (List Char)
  | [], acc => [acc.reverse]
  | c :: cs, acc =>
      if c = sep then acc.reverse :: splitCharsAux sep cs []
      else splitCharsAux sep cs (c :: acc)

/-- `strings.Split(s, ":")` and friends, as a list of strings. -/
def splitOnChar (sep : Char) (s : String) : List String :=
  (splitCharsAux sep s.data []).map fun cs => String.mk cs

/-- `parseRegionKey`: parses a `"provider:region"` key. -/
def parseRegionKey (key : String) : String × String :=
  match splitOnChar ':' key with
  | [p, r] => (p, r)
  | _ => ("aws", "us-east-1")

/-- The `"provider:region"` grouping key (`fmt.Sprintf("%s:%s", ...)`). -/
def regionKey (i : GPUInstance) : String := i.provider ++ ":" ++ i.region

/-- Append an instance to its group, preserving first-insertion order of
keys (a fixed or der standing in for Go's unspecified map iteration). -/
def insertGroup (k : String) (i : GPUInstance) :
    List (String × List GPUInstance) → List (String × List GPUInstance)
  | [] => [(k, [i])]
  | (k', is) :: gs =>
      if k' = k then (k', is ++ [i]) :: gs else (k', is) :: insertGroup k i gs

/-- Group candidates by `"provider:region"` (the `regionGroups` map). -/
def groupByRegion (cands : List GPUInstance) : List (String × List GPUInstance) :=
  cands.foldl (fun gs i => insertGroup (regionKey i) i gs) []

/-- `filterCandidates`: keep instances with at least one GPU and enough
per-GPU memory.  The input is the per-provider lists of
`FetchAllPricing`, in an arbitrary fixed order. -/
def filterCandidates (allInstances : List (List GPUInstance))
    (requirements : JobRequirements) : List GPUInstance :=
  allInstances.flatten.filter fun i =>
    0 < i.gpusPerInstance ∧ requirements.gpuMemory ≤ i.memoryPerGPU

/-- `filterMultiNodeCompatible`: high interconnect tier and enough
node quota for the whole job. -/
def filterMultiNodeCompatible (requirements : JobRequirements)
    (candidates : List GPUInstance) : List GPUInstance :=
  candidates.filter fun i =>
    i.interconnectTier = "high" ∧
    Int.tdiv (requirements.gpus + i.gpusPerInstance - 1) i.gpusPerInstance ≤
      getMaxNodesForProvider i.provider

/-- Effective price per GPU used by `cheapestStrategy`'s sort: spot price
when available and allowed, on-demand otherwise, divided by the GPU count. -/
def effPricePerGPU (allowSpot : Bool) (i : GPUInstance) : ℚ :=
  if 0 < i.spotPrice ∧ allowSpot then i.spotPrice / (i.gpusPerInstance : ℚ)
  else i.pricePerHour / (i.gpusPerInstance : ℚ)

/-- The comparator passed to `sort.Slice` in `cheapestStrategy`: it
compares effective price per GPU and nothing else. -/
def cheapestLess (allowSpot : Bool) (i j : GPUInstance) : Bool :=
  effPricePerGPU allowSpot i < effPricePerGPU allowSpot j

/-- The greedy allocation loop of `cheapestStrategy`, walking the sorted
candidates and emitting allocations until `remaining ≤ 0`.  Returns the
emitted allocations and the final `remaining`.  (Go panics on
`gpusPerInstance = 0`; theorems assume the upstream filter's
`gpusPerInstance > 0`.) -/
def greedyLoop (requirements : JobRequirements) (constraints : JobConstraints)
    (remaining : Int) : List GPUInstance → List Allocation × Int
  | [] => ([], remaining)
  | inst :: rest =>
    if remaining ≤ 0 then ([], remaining)
    else if 0 < requirements.maxGPUsPerNode ∧
        requirements.maxGPUsPerNode < inst.gpusPerInstance then
      greedyLoop requirements constraints remaining rest
    else
      let instancesNeeded :=
        Int.tdiv (remaining + inst.gpusPerInstance - 1) inst.gpusPerInstance
      if 0 < instancesNeeded then
        if requirements.requiresMultiNode ∧
            getMaxNodesForProvider inst.provider < instancesNeeded then
          greedyLoop requirements constraints remaining rest
        else
          let useSpot := constraints.allowSpot ∧ 0 < inst.spotPrice
          let price := if useSpot then inst.spotPrice else inst.pricePerHour
          let alloc : Allocation :=
            { provider := inst.provider
              instanceType := inst.instanceType
              region := inst.region
              count := instancesNeeded
              spot := useSpot
              pricePerHour := price
              estimatedCost :=
                price * (instancesNeeded : ℚ) * requirements.estimatedHours }
          let res := greedyLoop requirements constraints
            (remaining - instancesNeeded * inst.gpusPerInstance) rest
          (alloc :: res.1, res.2)
      else greedyLoop requirements constraints remaining rest

/-- `cheapestStrategy`: the shared greedy allocator.  Filters multi-node
compatible instances when needed, sorts by effective price per GPU, runs
the greedy loop, and returns an empty plan when GPUs remain uncovered. -/
def cheapestStrategy (requirements : JobRequirements)
    (constraints : JobConstraints) (candidates : List GPUInstance) : Strategy :=
  let cands :=
    if requirements.executionMode = "single_cluster" ∧
        requirements.requiresMultiNode then
      filterMultiNodeCompatible requirements candidates
    else candidates
  let sorted := sortB (cheapestLess constraints.allowSpot) cands
  let res := greedyLoop requirements constraints requirements.gpus sorted
  if 0 < res.2 then { Strategy.empty with allocation := [] }
  else { Strategy.empty with allocation := res.1 }

/-- Whether some allocation leaves the claimed `provider:region` group
(the verification loop of `cheapestSingleRegionStrategy`). -/
def spansRegions (p r : String) (allocs : List Allocation) : Bool :=
  allocs.any fun a => a.provider ≠ p ∨ a.region ≠ r

/-- The best-region fold of `cheapestSingleRegionStrategy`, carrying
`(bestStrategy, bestCost)`: a group beats the incumbent when its
(always-zero) `totalCost` is below `bestCost` and it is non-empty; a
group spanning regions poisons `bestCost` but keeps the strategy. -/
def bestRegionVerified (requirements : JobRequirements)
    (constraints : JobConstraints)
    (groups : List (String × List GPUInstance)) : Strategy :=
  (groups.foldl
    (fun (acc : Strategy × ℚ) g =>
      let rs := cheapestStrategy requirements constraints g.2
      if rs.totalCost < acc.2 ∧ rs.allocation ≠ [] then
        let pr := parseRegionKey g.1
        (rs, if spansRegions pr.1 pr.2 rs.allocation then 999999 else rs.totalCost)
      else acc)
    (Strategy.empty, 999999)).1

/-- `cheapestSingleRegionStrategy`: cheapest plan within one
provider+region group. -/
def cheapestSingleRegionStrategy (requirements : JobRequirements)
    (constraints : JobConstraints) (candidates : List GPUInstance) : Strategy :=
  bestRegionVerified requirements constraints (groupByRegion candidates)

/-- `reliableSingleRegionStrategy`: restrict to on-prem or
high-availability candidates (falling back to all), then best region. -/
def reliableSingleRegionStrategy (requirements : JobRequirements)
    (constraints : JobConstraints) (candidates : List GPUInstance) : Strategy :=
  let reliable := candidates.filter fun i =>
    i.provider = "onprem" ∨ (95 : ℚ) / 100 ≤ i.availability
  let reliable' := if reliable = [] then candidates else reliable
  bestRegionVerified requirements constraints (groupByRegion reliable')

/-- The unverified best-region fold of `dataLocalityStrategy`'s preferred
branch (no region-key check). -/
def bestRegionUnverified (requirements : JobRequirements)
    (constraints : JobConstraints)
    (groups : List (String × List GPUInstance)) : Strategy :=
  (groups.foldl
    (fun (acc : Strategy × ℚ) g =>
      let rs := cheapestStrategy requirements constraints g.2
      if rs.totalCost < acc.2 ∧ rs.allocation ≠ [] then (rs, rs.totalCost)
      else acc)
    (Strategy.empty, 999999)).1

/-- `dataLocalityStrategy`: prefer the dataset's provider+region, fall
back to the other candidates, then to all candidates. -/
def dataLocalityStrategy (requirements : JobRequirements)
    (constraints : JobConstraints) (candidates : List GPUInstance) : Strategy :=
  let dpr := parseDatasetLocation requirements.datasetLocation
  let preferred := candidates.filter fun i =>
    i.provider = dpr.1 ∧ i.region = dpr.2
  let other := candidates.filter fun i =>
    ¬ (i.provider = dpr.1 ∧ i.region = dpr.2)
  let fromPreferred :=
    if preferred ≠ [] then
      bestRegionUnverified requirements constraints (groupByRegion preferred)
    else Strategy.empty
  if preferred ≠ [] ∧ fromPreferred.allocation ≠ [] then fromPreferred
  else if other ≠ [] then
    cheapestSingleRegionStrategy requirements constraints other
  else cheapestSingleRegionStrategy requirements constraints candidates

/-- The comparator of `geoDistributedTaskStrategy`'s per-region sort:
absolute effective price (not per GPU). -/
def geoLess (allowSpot : Bool) (i j : GPUInstance) : Bool :=
  (if 0 < i.spotPrice ∧ allowSpot then i.spotPrice else i.pricePerHour) <
  (if 0 < j.spotPrice ∧ allowSpot then j.spotPrice else j.pricePerHour)

/-- `cheapestMultiProviderStrategy`: the greedy allocator over all
candidates (cross-provider allowed). -/
def cheapestMultiProviderStrategy (requirements : JobRequirements)
    (constraints : JobConstraints) (candidates : List GPUInstance) : Strategy :=
  cheapestStrategy requirements constraints candidates

/-- The region loop of `geoDistributedTaskStrategy`: `i` is the loop
index, `m` the number of regions, `gpusPerTask = 1`.  The last region
absorbs the remaining (possibly non-positive) tasks. -/
def geoAllocs (constraints : JobConstraints) (hours : ℚ)
    (totalTasks tasksPerRegion : Int) (m : Nat) :
    Nat → List (String × List GPUInstance) → List Allocation
  | _, [] => []
  | i, (key, insts) :: rest =>
    match sortB (geoLess constraints.allowSpot) insts with
    | [] => geoAllocs constraints hours totalTasks tasksPerRegion m (i + 1) rest
    | best :: _ =>
      let pr := match splitOnChar ':' key with
        | [p, r] => (p, r)
        | _ => ("aws", "us-east-1")
      let remainingTasks : Int :=
        if i = m - 1 then totalTasks - tasksPerRegion * ((m : Int) - 1)
        else tasksPerRegion
      let instancesNeeded :=
        Int.tdiv (remainingTasks * 1 + best.gpusPerInstance - 1)
          best.gpusPerInstance
      let useSpot := constraints.allowSpot ∧ 0 < best.spotPrice
      let price := if useSpot then best.spotPrice else best.pricePerHour
      { provider := pr.1
        instanceType := best.instanceType
        region := pr.2
        count := instancesNeeded
        spot := useSpot
        pricePerHour := price
        estimatedCost := price * (instancesNeeded : ℚ) * hours } ::
        geoAllocs constraints hours totalTasks tasksPerRegion m (i + 1) rest

/-- `geoDistributedTaskStrategy`: distribute `gpus` one-GPU tasks
round-robin across regions; the last region gets the remainder. -/
def geoDistributedTaskStrategy (requirements : JobRequirements)
    (constraints : JobConstraints) (candidates : List GPUInstance) : Strategy :=
  let groups := groupByRegion candidates
  let totalTasks0 := Int.tdiv requirements.gpus 1
  let totalTasks := if totalTasks0 = 0 then 1 else totalTasks0
  if groups.length = 0 then Strategy.empty
  else
    let tpr0 := Int.tdiv totalTasks (groups.length : Int)
    let tpr := if tpr0 = 0 then 1 else tpr0
    { Strategy.empty with
      allocation :=
        geoAllocs constraints requirements.estimatedHours totalTasks tpr
          groups.length 0 groups }

/-- `hybridTaskStrategy`: on-prem first, cloud as backup. -/
def hybridTaskStrategy (requirements : JobRequirements)
    (constraints : JobConstraints) (candidates : List GPUInstance) : Strategy :=
  let onPrem := candidates.filter fun i => i.provider = "onprem"
  let cloud := candidates.filter fun i => ¬ i.provider = "onprem"
  if onPrem ≠ [] then
    let s := cheapestStrategy requirements constraints onPrem
    if s.allocation ≠ [] then s
    else cheapestStrategy requirements constraints cloud
  else cheapestStrategy requirements constraints cloud

/-- `generateStrategies`: the per-execution-mode strategy family. -/
def generateStrategies (candidates : List GPUInstance)
    (requirements : JobRequirements) (constraints : JobConstraints) :
    List Strategy :=
  if requirements.executionMode = "single_cluster" then
    [cheapestSingleRegionStrategy requirements constraints candidates,
     reliableSingleRegionStrategy requirements constraints candidates] ++
    (if constraints.dataLocality = "required" ∨
        constraints.dataLocality = "prefer" then
      [dataLocalityStrategy requirements constraints candidates]
    else [])
  else if requirements.executionMode = "multi_task" then
    [cheapestMultiProviderStrategy requirements constraints candidates,
     geoDistributedTaskStrategy requirements constraints candidates,
     hybridTaskStrategy requirements constraints candidates]
  else []

/-- `CostCalculator.CalculateCost`: Σ price_per_hour × count × hours. -/
def calculateCost (allocation : List Allocation) (estimatedHours : ℚ) : ℚ :=
  (allocation.map fun a => a.pricePerHour * (a.count : ℚ) * estimatedHours).sum

/-- `parseProviderFromLocation` (stub in the source): always aws. -/
def parseProviderFromLocation (_location : String) : String := "aws"

/-- `parseRegionFromLocation` (stub in the source): always us-east-1. -/
def parseRegionFromLocation (_location : String) : String := "us-east-1"

/-- `CostCalculator.CalculateDataTransferCost`: zero within one
provider+region, else $0.10/GB. -/
def calculateDataTransferCost (dataSizeGB : ℚ)
    (sourceProvider sourceRegion targetProvider targetRegion : String) : ℚ :=
  if sourceProvider = targetProvider ∧ sourceRegion = targetRegion then 0
  else dataSizeGB * (1 / 10)

/-- The data-transfer-cost accumulation of `scoreStrategies` (100 GB
estimated dataset size, source parsed from the dataset location). -/
def dataTransferCostFor (requirements : JobRequirements)
    (allocation : List Allocation) : ℚ :=
  if requirements.datasetLocation ≠ "" then
    (allocation.map fun a =>
      calculateDataTransferCost 100
        (parseProviderFromLocation requirements.datasetLocation)
        (parseRegionFromLocation requirements.datasetLocation)
        a.provider a.region).sum
  else 0

/-- The `spotCount` accumulation of `scoreStrategies`: total count over
spot allocations. -/
def spotTotalCount (allocation : List Allocation) : Int :=
  (allocation.map fun a => if a.spot then a.count else 0).sum

/-- The per-strategy body of `scoreStrategies`.  Reliability divides the
spot count by the *number of allocation entries* (`len(strategy.Allocation)`).
For an empty allocation Go's float 0/0 is NaN; the rational model yields
0 there, and every theorem below touching reliability assumes a
non-empty allocation. -/
def scoreOne (requirements : JobRequirements) (constraints : JobConstraints)
    (s : Strategy) : Strategy :=
  let totalCost := calculateCost s.allocation requirements.estimatedHours
  let dtc := dataTransferCostFor requirements s.allocation
  let reliability :=
    1 - ((spotTotalCount s.allocation : ℚ) / (s.allocation.length : ℚ)) * (1 / 10)
  let costWeight := 1 - constraints.performanceWeight
  let normalizedCost := (totalCost + dtc) / constraints.maxBudget
  let reliabilityPenalty := (1 - reliability) * (1 / 5)
  let score0 := costWeight * normalizedCost + reliabilityPenalty
  let score1 :=
    if constraints.maxBudget < totalCost + dtc then (999999 : ℚ) else score0
  let score2 :=
    if reliability < constraints.minReliability then (999999 : ℚ) else score1
  { s with totalCost := totalCost, reliability := reliability, score := score2 }

/-- The comparator of `scoreStrategies`' final sort. -/
def scoreLess (a b : Strategy) : Bool := a.score < b.score

/-- `scoreStrategies`: score every strategy, then sort ascending. -/
def scoreStrategies (requirements : JobRequirements)
    (constraints : JobConstraints) (strategies : List Strategy) :
    List Strategy :=
  sortB scoreLess (strategies.map (scoreOne requirements constraints))

/-- `AllocationOptimizer.Optimize`: filter, generate, score, and return
the head strategy's allocation — whatever its score.  The pricing input
is given directly (the fetcher's error path is outside this model). -/
def Optimize (allInstances : List (List GPUInstance))
    (requirements : JobRequirements) (constraints : JobConstraints) :
    Except String (List Allocation) :=
  let candidates := filterCandidates allInstances requirements
  let strategies := generateStrategies candidates requirements constraints
  match scoreStrategies requirements constraints strategies with
  | [] => Except.error "no suitable allocation found"
  | s :: _ => Except.ok s.allocation

/-- A single on-demand candidate: 8 V100 GPUs at $10/h. -/
def inst1 : GPUInstance :=
  { provider := "aws", instanceType := "p3.16xlarge", region := "us-east-1",
    gpuType := "V100", gpusPerInstance := 8, memoryPerGPU := 16,
    pricePerHour := 10, spotPrice := 0, availability := 1,
    interconnectTier := "high" }

/-- A single-cluster job asking for 8 GPUs for one hour. -/
def req1 : JobRequirements :=
  { gpus := 8, gpuFraction := 1, useMIG := false, migProfile := "",
    maxGPUsPerNode := 0, requiresMultiNode := false, gpuMemory := 0,
    cpuMemory := 0, storage := 0, estimatedHours := 1, framework := "pytorch",
    executionMode := "single_cluster", datasetLocation := "" }

/-- Constraints with a $1 budget: every strategy for `inst1`/`req1` costs
$10 and is disqualified. -/
def cons1 : JobConstraints :=
  { maxBudget := 1, deadline := none, preferredRegions := [],
    allowSpot := false, minReliability := 0, dataLocality := "ignore",
    performanceWeight := 0, replicationPolicy := "none" }

/-- The plan `Optimize` produces for `inst1`/`req1`/`cons1`. -/
def allocC1 : Allocation :=
  { provider := "aws", instanceType := "p3.16xlarge", region := "us-east-1",
    count := 1, spot := false, pricePerHour := 10, estimatedCost := 10 }

/-- C1: with a $1 budget and a lone $10/h candidate, every strategy is
disqualified (score 999999), yet `Optimize` returns the head plan, whose
cost exceeds the budget. -/
theorem C1_counterexample :
    Optimize [[inst1]] req1 cons1 = Except.ok [allocC1] ∧
    cons1.maxBudget <
      calculateCost [allocC1] req1.estimatedHours +
        dataTransferCostFor req1 [allocC1] := by
  constructor
  · simp [Optimize, filterCandidates, generateStrategies,
      cheapestSingleRegionStrategy, reliableSingleRegionStrategy,
      bestRegionVerified, groupByRegion, insertGroup, regionKey,
      cheapestStrategy, filterMultiNodeCompatible, sortB, insertB,
      cheapestLess, effPricePerGPU, greedyLoop, parseRegionKey, splitOnChar,
      splitCharsAux, spansRegions, scoreStrategies, scoreOne, scoreLess,
      calculateCost, dataTransferCostFor, spotTotalCount, Strategy.empty,
      inst1, req1, cons1, allocC1, getMaxNodesForProvider, Int.tdiv,
      Function.comp]
    try norm_num [Optimize, filterCandidates, generateStrategies,
      cheapestSingleRegionStrategy, reliableSingleRegionStrategy,
      bestRegionVerified, groupByRegion, insertGroup, regionKey,
      cheapestStrategy, filterMultiNodeCompatible, sortB, insertB,
      cheapestLess, effPricePerGPU, greedyLoop, parseRegionKey, splitOnChar,
      splitCharsAux, spansRegions, scoreStrategies, scoreOne, scoreLess,
      calculateCost, dataTransferCostFor, spotTotalCount, Strategy.empty,
      inst1, req1, cons1, allocC1, getMaxNodesForProvider, Int.tdiv,
      Function.comp]
    try simp [Optimize, filterCandidates, generateStrategies,
      cheapestSingleRegionStrategy, reliableSingleRegionStrategy,
      bestRegionVerified, groupByRegion, insertGroup, regionKey,
      cheapestStrategy, filterMultiNodeCompatible, sortB, insertB,
      cheapestLess, effPricePerGPU, greedyLoop, parseRegionKey, splitOnChar,
      splitCharsAux, spansRegions, scoreStrategies, scoreOne, scoreLess,
      calculateCost, dataTransferCostFor, spotTotalCount, Strategy.empty,
      inst1, req1, cons1, allocC1, getMaxNodesForProvider, Int.tdiv,
      Function.comp]
  · norm_num [calculateCost, dataTransferCostFor, cons1, req1, allocC1]

/-- C2: in the same all-disqualified scenario, the head strategy carries
the disqualification score 999999, yet `Optimize` succeeds instead of
failing with an infeasible-job error. -/
theorem C2_counterexample :
    (scoreStrategies req1 cons1
        (generateStrategies (filterCandidates [[inst1]] req1) req1 cons1)).head?.map
        Strategy.score = some 999999 ∧
    (Optimize [[inst1]] req1 cons1).isOk = true := by
  constructor
  · simp [Optimize, filterCandidates, generateStrategies,
      cheapestSingleRegionStrategy, reliableSingleRegionStrategy,
      bestRegionVerified, groupByRegion, insertGroup, regionKey,
      cheapestStrategy, filterMultiNodeCompatible, sortB, insertB,
      cheapestLess, effPricePerGPU, greedyLoop, parseRegionKey, splitOnChar,
      splitCharsAux, spansRegions, scoreStrategies, scoreOne, scoreLess,
      calculateCost, dataTransferCostFor, spotTotalCount, Strategy.empty,
      inst1, req1, cons1, allocC1, getMaxNodesForProvider, Int.tdiv,
      Function.comp]
    try norm_num [Optimize, filterCandidates, generateStrategies,
      cheapestSingleRegionStrategy, reliableSingleRegionStrategy,
      bestRegionVerified, groupByRegion, insertGroup, regionKey,
      cheapestStrategy, filterMultiNodeCompatible, sortB, insertB,
      cheapestLess, effPricePerGPU, greedyLoop, parseRegionKey, splitOnChar,
      splitCharsAux, spansRegions, scoreStrategies, scoreOne, scoreLess,
      calculateCost, dataTransferCostFor, spotTotalCount, Strategy.empty,
      inst1, req1, cons1, allocC1, getMaxNodesForProvider, Int.tdiv,
      Function.comp]
    try simp [Optimize, filterCandidates, generateStrategies,
      cheapestSingleRegionStrategy, reliableSingleRegionStrategy,
      bestRegionVerified, groupByRegion, insertGroup, regionKey,
      cheapestStrategy, filterMultiNodeCompatible, sortB, insertB,
      cheapestLess, effPricePerGPU, greedyLoop, parseRegionKey, splitOnChar,
      splitCharsAux, spansRegions, scoreStrategies, scoreOne, scoreLess,
      calculateCost, dataTransferCostFor, spotTotalCount, Strategy.empty,
      inst1, req1, cons1, allocC1, getMaxNodesForProvider, Int.tdiv,
      Function.comp]
  · simp [Optimize, filterCandidates, generateStrategies,
      cheapestSingleRegionStrategy, reliableSingleRegionStrategy,
      bestRegionVerified, groupByRegion, insertGroup, regionKey,
      cheapestStrategy, filterMultiNodeCompatible, sortB, insertB,
      cheapestLess, effPricePerGPU, greedyLoop, parseRegionKey, splitOnChar,
      splitCharsAux, spansRegions, scoreStrategies, scoreOne, scoreLess,
      calculateCost, dataTransferCostFor, spotTotalCount, Strategy.empty,
      inst1, req1, cons1, allocC1, getMaxNodesForProvider, Int.tdiv,
      Function.comp, Except.isOk, Except.toBool]
    try norm_num [Optimize, filterCandidates, generateStrategies,
      cheapestSingleRegionStrategy, reliableSingleRegionStrategy,
      bestRegionVerified, groupByRegion, insertGroup, regionKey,
      cheapestStrategy, filterMultiNodeCompatible, sortB, insertB,
      cheapestLess, effPricePerGPU, greedyLoop, parseRegionKey, splitOnChar,
      splitCharsAux, spansRegions, scoreStrategies, scoreOne, scoreLess,
      calculateCost, dataTransferCostFor, spotTotalCount, Strategy.empty,
      inst1, req1, cons1, allocC1, getMaxNodesForProvider, Int.tdiv,
      Function.comp, Except.isOk, Except.toBool]
    try simp [Optimize, filterCandidates, generateStrategies,
      cheapestSingleRegionStrategy, reliableSingleRegionStrategy,
      bestRegionVerified, groupByRegion, insertGroup, regionKey,
      cheapestStrategy, filterMultiNodeCompatible, sortB, insertB,
      cheapestLess, effPricePerGPU, greedyLoop, parseRegionKey, splitOnChar,
      splitCharsAux, spansRegions, scoreStrategies, scoreOne, scoreLess,
      calculateCost, dataTransferCostFor, spotTotalCount, Strategy.empty,
      inst1, req1, cons1, allocC1, getMaxNodesForProvider, Int.tdiv,
      Function.comp, Except.isOk, Except.toBool]

/-- One-GPU instance in region `r` (used by the geo counterexample). -/
def giR (r : String) : GPUInstance :=
  { provider := "aws", instanceType := "g4dn." ++ r, region := r,
    gpuType := "T4", gpusPerInstance := 1, memoryPerGPU := 16,
    pricePerHour := 1, spotPrice := 0, availability := 1,
    interconnectTier := "standard" }

/-- A multi-task job asking for 2 GPUs. -/
def req3 : JobRequirements :=
  { req1 with gpus := 2, executionMode := "multi_task" }

/-- Three single-GPU candidates in three regions. -/
def cands3 : List GPUInstance := [giR "r1", giR "r2", giR "r3"]

/-- C3: with 2 tasks over 3 regions the geo-distributed generator's last
region receives 0 tasks and an `Allocation` with `count = 0` is emitted,
refuting "every emitted Allocation has count > 0". -/
theorem C3_counterexample :
    (geoDistributedTaskStrategy req3 cons1 cands3).allocation.map
      Allocation.count = [1, 1, 0] ∧
    ((geoDistributedTaskStrategy req3 cons1 cands3).allocation.all
      fun a => decide (0 < a.count)) = false := by
  constructor
  · simp [geoDistributedTaskStrategy, geoAllocs, groupByRegion,
      insertGroup, regionKey, sortB, insertB, geoLess, splitOnChar,
      splitCharsAux, req3, req1, cons1, giR, cands3, Strategy.empty,
      Int.tdiv]
  · simp [geoDistributedTaskStrategy, geoAllocs, groupByRegion,
      insertGroup, regionKey, sortB, insertB, geoLess, splitOnChar,
      splitCharsAux, req3, req1, cons1, giR, cands3, Strategy.empty,
      Int.tdiv, List.all]

/-- Two candidates with the same $5 per-GPU effective price but different
lexicographic keys. -/
def instTieA : GPUInstance :=
  { provider := "aws", instanceType := "a1.gpu", region := "r1",
    gpuType := "T4", gpusPerInstance := 1, memoryPerGPU := 16,
    pricePerHour := 5, spotPrice := 0, availability := 1,
    interconnectTier := "standard" }

/-- Same effective price as `instTieA`, larger lexicographic key. -/
def instTieB : GPUInstance :=
  { instTieA with instanceType := "b1.gpu" }

/-- C5: the sort comparator of `cheapestStrategy` leaves equal-priced
candidates mutually unordered: even though `instTieA`'s
(provider, region, instance_type) key is lexicographically smaller, the
comparator does not place it first — no lexicographic tie-break exists. -/
theorem C5_counterexample :
    effPricePerGPU false instTieA = effPricePerGPU false instTieB ∧
    instTieA.provider = instTieB.provider ∧
    instTieA.region = instTieB.region ∧
    instTieA.instanceType.data < instTieB.instanceType.data ∧
    cheapestLess false instTieA instTieB = false ∧
    cheapestLess false instTieB instTieA = false := by
  refine ⟨by simp [effPricePerGPU, instTieA, instTieB], rfl, rfl,
    by decide, ?_, ?_⟩
  · simp [cheapestLess, effPricePerGPU, instTieA, instTieB]
  · simp [cheapestLess, effPricePerGPU, instTieA, instTieB]

/-- A strategy holding one spot allocation of two instances. -/
def stC6 : Strategy :=
  { allocation :=
      [{ provider := "aws", instanceType := "p3.16xlarge",
         region := "us-east-1", count := 2, spot := true,
         pricePerHour := 1, estimatedCost := 2 }],
    totalCost := 0, reliability := 0, score := 0 }

/-- Modelled from the spec: `reliability = 1 − (spot_instance_ratio × 0.1)`
with `spot_instance_ratio = Σ(spot ? count : 0) / Σ count`. -/
def specReliability (allocation : List Allocation) : ℚ :=
  1 - ((spotTotalCount allocation : ℚ) /
        (((allocation.map Allocation.count).sum : Int) : ℚ)) * (1 / 10)

/-- C6: on one spot allocation with `count = 2` the scorer computes
reliability `1 − (2/1)×0.1 = 0.8` (dividing by the number of allocation
entries), while the spec's formula gives `1 − (2/2)×0.1 = 0.9`. -/
theorem C6_counterexample :
    (scoreOne req1 cons1 stC6).reliability = 4 / 5 ∧
    specReliability stC6.allocation = 9 / 10 ∧
    (scoreOne req1 cons1 stC6).reliability ≠ specReliability stC6.allocation := by
  refine ⟨?_, ?_, ?_⟩
  · simp [scoreOne, spotTotalCount, stC6, dataTransferCostFor,
      calculateCost, req1, cons1]
    try norm_num
  · simp [specReliability, spotTotalCount, stC6]
    try norm_num
  · simp [scoreOne, specReliability, spotTotalCount, stC6,
      dataTransferCostFor, calculateCost, req1, cons1]
    try norm_num

/-- Every scored strategy is `scoreOne` of a generated strategy. -/
theorem mem_scoreStrategies (requirements : JobRequirements)
    (constraints : JobConstraints) (strategies : List Strategy) (s : Strategy)
    (h : s ∈ scoreStrategies requirements constraints strategies) :
    ∃ t ∈ strategies, scoreOne requirements constraints t = s := by
  have h' := mem_sortB _ _ _ h
  exact List.mem_map.mp h'

/-- C1 (amended): `Optimize` returns the head of the scored list
unconditionally; whenever that head is non-empty and its score is below
the disqualification value 999999, the plan does satisfy the budget and
reliability constraints.  (The unamended claim fails because a
disqualified head is returned as well, see the counterexample.) -/
theorem C1_amended (allInstances : List (List GPUInstance))
    (requirements : JobRequirements) (constraints : JobConstraints)
    (s : Strategy) (rest : List Strategy)
    (hscored : scoreStrategies requirements constraints
      (generateStrategies (filterCandidates allInstances requirements)
        requirements constraints) = s :: rest)
    (hne : s.allocation ≠ [])
    (hs : s.score < 999999) :
    Optimize allInstances requirements constraints = Except.ok s.allocation ∧
    calculateCost s.allocation requirements.estimatedHours +
        dataTransferCostFor requirements s.allocation ≤ constraints.maxBudget ∧
    constraints.minReliability ≤ s.reliability := by
  have hok : Optimize allInstances requirements constraints =
      Except.ok s.allocation := by
    simp only [Optimize]
    rw [hscored]
  have hmem : s ∈ scoreStrategies requirements constraints
      (generateStrategies (filterCandidates allInstances requirements)
        requirements constraints) := by
    rw [hscored]; exact List.mem_cons_self _ _
  obtain ⟨t, -, hst⟩ := mem_scoreStrategies _ _ _ _ hmem
  subst hst
  simp only [scoreOne] at hs ⊢
  refine ⟨hok, ?_, ?_⟩
  · by_cases hrel :
        1 - ((spotTotalCount t.allocation : ℚ) / (t.allocation.length : ℚ)) *
          (1 / 10) < constraints.minReliability
    · rw [if_pos hrel] at hs
      exact absurd hs (lt_irrefl _)
    · rw [if_neg hrel] at hs
      by_cases hbud : constraints.maxBudget <
          calculateCost t.allocation requirements.estimatedHours +
            dataTransferCostFor requirements t.allocation
      · rw [if_pos hbud] at hs
        exact absurd hs (lt_irrefl _)
      · exact not_lt.mp hbud
  · by_cases hrel :
        1 - ((spotTotalCount t.allocation : ℚ) / (t.allocation.length : ℚ)) *
          (1 / 10) < constraints.minReliability
    · rw [if_pos hrel] at hs
      exact absurd hs (lt_irrefl _)
    · exact not_lt.mp hrel

/-- Constraints identical to `cons1` except for an adequate $20 budget. -/
def cons2 : JobConstraints := { cons1 with maxBudget := 20 }

/-- The scored strategy `Optimize` selects under `cons2`. -/
def sC1W : Strategy :=
  { allocation := [allocC1], totalCost := 10, reliability := 1, score := 1 / 2 }

/-- C1 amended, witnessed: with a $20 budget the head strategy scores
1/2 < 999999 and the returned plan meets budget and reliability. -/
theorem C1_amended_witness :
    Optimize [[inst1]] req1 cons2 = Except.ok sC1W.allocation ∧
    calculateCost sC1W.allocation req1.estimatedHours +
        dataTransferCostFor req1 sC1W.allocation ≤ cons2.maxBudget ∧
    cons2.minReliability ≤ sC1W.reliability :=
  C1_amended [[inst1]] req1 cons2 sC1W [sC1W]
    (by
      simp [Optimize, filterCandidates, generateStrategies,
        cheapestSingleRegionStrategy, reliableSingleRegionStrategy,
        bestRegionVerified, groupByRegion, insertGroup, regionKey,
        cheapestStrategy, filterMultiNodeCompatible, sortB, insertB,
        cheapestLess, effPricePerGPU, greedyLoop, parseRegionKey, splitOnChar,
        splitCharsAux, spansRegions, scoreStrategies, scoreOne, scoreLess,
        calculateCost, dataTransferCostFor, spotTotalCount, Strategy.empty,
        inst1, req1, cons1, cons2, allocC1, sC1W, getMaxNodesForProvider,
        Int.tdiv, Function.comp]
      try norm_num [Optimize, filterCandidates, generateStrategies,
        cheapestSingleRegionStrategy, reliableSingleRegionStrategy,
        bestRegionVerified, groupByRegion, insertGroup, regionKey,
        cheapestStrategy, filterMultiNodeCompatible, sortB, insertB,
        cheapestLess, effPricePerGPU, greedyLoop, parseRegionKey, splitOnChar,
        splitCharsAux, spansRegions, scoreStrategies, scoreOne, scoreLess,
        calculateCost, dataTransferCostFor, spotTotalCount, Strategy.empty,
        inst1, req1, cons1, cons2, allocC1, sC1W, getMaxNodesForProvider,
        Int.tdiv, Function.comp]
      try simp [Optimize, filterCandidates, generateStrategies,
        cheapestSingleRegionStrategy, reliableSingleRegionStrategy,
        bestRegionVerified, groupByRegion, insertGroup, regionKey,
        cheapestStrategy, filterMultiNodeCompatible, sortB, insertB,
        cheapestLess, effPricePerGPU, greedyLoop, parseRegionKey, splitOnChar,
        splitCharsAux, spansRegions, scoreStrategies, scoreOne, scoreLess,
        calculateCost, dataTransferCostFor, spotTotalCount, Strategy.empty,
        inst1, req1, cons1, cons2, allocC1, sC1W, getMaxNodesForProvider,
        Int.tdiv, Function.comp])
    (by simp [sC1W])
    (by norm_num [sC1W])

/-- C5 (amended): the comparator of the candidate sort compares only
effective price per GPU, so two equal-priced candidates are mutually
unordered — no lexicographic (provider, region, instance_type) tie-break
is applied. -/
theorem C5_amended (allowSpot : Bool) (i j : GPUInstance)
    (h : effPricePerGPU allowSpot i = effPricePerGPU allowSpot j) :
    cheapestLess allowSpot i j = false ∧
    cheapestLess allowSpot j i = false := by
  constructor
  · simp [cheapestLess, h]
  · simp [cheapestLess, h]

/-- C5 amended, witnessed at the two concrete equal-priced candidates. -/
theorem C5_amended_witness :
    cheapestLess false instTieA instTieB = false ∧
    cheapestLess false instTieB instTieA = false :=
  C5_amended false instTieA instTieB
    (by simp [effPricePerGPU, instTieA, instTieB])

/-- C6 (amended): for every scored strategy with a non-empty allocation,
reliability equals `1 − (spot count / number of allocation entries) × 0.1`
— the denominator is the entry count, not the total instance count. -/
theorem C6_amended (requirements : JobRequirements)
    (constraints : JobConstraints) (strategies : List Strategy) (s : Strategy)
    (hmem : s ∈ scoreStrategies requirements constraints strategies)
    (hne : s.allocation ≠ []) :
    s.reliability =
      1 - ((spotTotalCount s.allocation : ℚ) / (s.allocation.length : ℚ)) *
        (1 / 10) := by
  obtain ⟨t, -, hst⟩ := mem_scoreStrategies _ _ _ _ hmem
  subst hst
  simp [scoreOne]

/-- C6 amended, witnessed on a singleton strategy list. -/
theorem C6_amended_witness :
    (scoreOne req1 cons1 stC6).reliability =
      1 - ((spotTotalCount (scoreOne req1 cons1 stC6).allocation : ℚ) /
            ((scoreOne req1 cons1 stC6).allocation.length : ℚ)) * (1 / 10) :=
  C6_amended req1 cons1 [stC6] (scoreOne req1 cons1 stC6)
    (by simp [scoreStrategies, sortB, insertB])
    (by simp [scoreOne, stC6])

/-- `models.JobStatus`. -/
inductive JobStatus where
  | pending | scheduled | provisioning | running | checkpointing
  | completed | failed | cancelled
  deriving Repr, DecidableEq

/-- A row of the append-only `job_events` table. -/
structure JobEvent where
  fromStatus : Option JobStatus
  toStatus : JobStatus
  reason : String
  deriving Repr, DecidableEq

/-- The durable state of one job: its status row, its event log, and its
`allocations` rows. -/
structure DBState where
  status : JobStatus
  events : List JobEvent
  allocations : List Allocation
  deriving Repr, DecidableEq

/-- `JobRepository.UpdateJobStatus`: one SQL transaction that sets the
status and appends the event together.  (The `UPDATE` does not check
`fromStatus`; it is only recorded in the event.) -/
def updateJobStatus (s : DBState) (fromStatus : JobStatus)
    (toStatus : JobStatus) (reason : String) : DBState :=
  { s with status := toStatus,
           events := s.events ++ [⟨some fromStatus, toStatus, reason⟩] }

/-- `AllocationRepository.CreateAllocation`: a separate durable write
appending one allocation row. -/
def createAllocation (s : DBState) (a : Allocation) : DBState :=
  { s with allocations := s.allocations ++ [a] }

/-- The observable states produced by the per-allocation
`CreateAllocation` loop of `Scheduler.processJob` (one durable write per
allocation). -/
def allocTrace (s : DBState) : List Allocation → List DBState
  | [] => []
  | a :: as =>
    let s' := createAllocation s a
    s' :: allocTrace s' as

/-- The trace of observable (committed) job states produced by one
iteration of `Scheduler.processQueue` for a pending job, as a function of
the optimizer's result: on error, mark the job failed with reason
`scheduler_error`; on an empty plan, `processJob` returns a nil error and
writes nothing; otherwise transition pending → scheduled first, then
persist each allocation in its own write. -/
def processQueueStep (optResult : Except String (List Allocation))
    (s0 : DBState) : List DBState :=
  match optResult with
  | Except.error _ =>
      [s0, updateJobStatus s0 s0.status JobStatus.failed "scheduler_error"]
  | Except.ok [] => [s0]
  | Except.ok allocs =>
      let s1 := updateJobStatus s0 JobStatus.pending JobStatus.scheduled
        "optimizer_selected_allocation"
      s0 :: s1 :: allocTrace s1 allocs

/-- C2 (amended): when the optimizer returns an error the scheduler marks
the job failed with reason `scheduler_error` — not `optimizer_no_plan`,
which appears nowhere in the source; and (per the counterexample) an
all-disqualified head does not even produce an optimizer error. -/
theorem C2_amended (e : String) (s0 : DBState) :
    processQueueStep (Except.error e) s0 =
      [s0, updateJobStatus s0 s0.status JobStatus.failed "scheduler_error"] ∧
    (updateJobStatus s0 s0.status JobStatus.failed "scheduler_error").status =
      JobStatus.failed ∧
    (updateJobStatus s0 s0.status JobStatus.failed
        "scheduler_error").events.getLast?.map JobEvent.reason =
      some "scheduler_error" ∧
    "scheduler_error" ≠ "optimizer_no_plan" := by
  refine ⟨rfl, rfl, ?_, by decide⟩
  simp [updateJobStatus]

/-- The pending job state used in the scheduler counterexamples. -/
def dbPending : DBState :=
  { status := JobStatus.pending,
    events := [⟨none, JobStatus.pending, "job_created"⟩],
    allocations := [] }

/-- A second allocation row for the two-allocation plan. -/
def allocC7 : Allocation :=
  { provider := "gcp", instanceType := "a2-highgpu-1g", region := "us-central1",
    count := 2, spot := false, pricePerHour := 3, estimatedCost := 6 }

/-- C7: scheduling is not one transaction — after the pending → scheduled
transition commits and before any `CreateAllocation` write, the job is
observably `scheduled` with no allocations. -/
theorem C7_counterexample :
    (processQueueStep (Except.ok [allocC1, allocC7]) dbPending).get? 1 =
      some (updateJobStatus dbPending JobStatus.pending JobStatus.scheduled
        "optimizer_selected_allocation") ∧
    (updateJobStatus dbPending JobStatus.pending JobStatus.scheduled
        "optimizer_selected_allocation").status = JobStatus.scheduled ∧
    (updateJobStatus dbPending JobStatus.pending JobStatus.scheduled
        "optimizer_selected_allocation").allocations = [] := by
  refine ⟨rfl, rfl, rfl⟩

/-- The last state of `allocTrace` is the fold of `createAllocation`. -/
theorem allocTrace_getLast_eq_foldl (s : DBState) (as : List Allocation)
    (h : as ≠ []) :
    (allocTrace s as).getLast? = some (as.foldl createAllocation s) := by
  induction as generalizing s with
  | nil => exact absurd rfl h
  | cons a rest ih =>
    rcases rest with _ | ⟨b, bs⟩
    · simp [allocTrace]
    · have := ih (createAllocation s a) (by simp)
      simpa [allocTrace, List.getLast?_cons_cons] using this

/-- Folding `createAllocation` appends all allocations. -/
theorem foldl_createAllocation (s : DBState) (as : List Allocation) :
    (as.foldl createAllocation s).allocations = s.allocations ++ as := by
  induction as generalizing s with
  | nil => simp
  | cons a rest ih =>
    simp [List.foldl_cons, ih, createAllocation]

/-- C7 (amended): the status transition together with its event append is
a single atomic write (`UpdateJobStatus` is one transaction), but the
allocations are persisted afterwards by separate writes: the state right
after the transition is observably `scheduled` with the old allocations,
and only the final state carries the full plan. -/
theorem C7_amended (s0 : DBState) (allocs : List Allocation)
    (h : allocs ≠ []) :
    (∀ f t r, (updateJobStatus s0 f t r).status = t ∧
      (updateJobStatus s0 f t r).events = s0.events ++ [⟨some f, t, r⟩] ∧
      (updateJobStatus s0 f t r).allocations = s0.allocations) ∧
    (processQueueStep (Except.ok allocs) s0).get? 1 =
      some (updateJobStatus s0 JobStatus.pending JobStatus.scheduled
        "optimizer_selected_allocation") ∧
    (updateJobStatus s0 JobStatus.pending JobStatus.scheduled
        "optimizer_selected_allocation").allocations = s0.allocations ∧
    (processQueueStep (Except.ok allocs) s0).getLast?.map
        DBState.allocations = some (s0.allocations ++ allocs) := by
  refine ⟨fun f t r => ⟨rfl, rfl, rfl⟩, ?_, rfl, ?_⟩
  · rcases allocs with _ | ⟨a, as⟩
    · exact absurd rfl h
    · rfl
  · rcases allocs with _ | ⟨a, as⟩
    · exact absurd rfl h
    · have hlast := allocTrace_getLast_eq_foldl
        (updateJobStatus s0 JobStatus.pending JobStatus.scheduled
          "optimizer_selected_allocation") (a :: as) (by simp)
      have hfold := foldl_createAllocation
        (updateJobStatus s0 JobStatus.pending JobStatus.scheduled
          "optimizer_selected_allocation") (a :: as)
      simp only [processQueueStep, List.getLast?_cons_cons]
      rcases hat : allocTrace (updateJobStatus s0 JobStatus.pending
          JobStatus.scheduled "optimizer_selected_allocation") (a :: as) with
        _ | ⟨t, ts⟩
      · simp [allocTrace] at hat
      · rw [hat] at hlast
        rw [List.getLast?_cons_cons, hlast]
        simp only [Option.map_some']
        rw [hfold]
        simp [updateJobStatus]

/-- C7 amended, witnessed on the concrete two-allocation plan. -/
theorem C7_amended_witness :
    (processQueueStep (Except.ok [allocC1, allocC7]) dbPending).get? 1 =
      some (updateJobStatus dbPending JobStatus.pending JobStatus.scheduled
        "optimizer_selected_allocation") ∧
    (processQueueStep (Except.ok [allocC1, allocC7])
        dbPending).getLast?.map DBState.allocations =
      some (dbPending.allocations ++ [allocC1, allocC7]) :=
  ⟨(C7_amended dbPending [allocC1, allocC7] (by simp)).2.1,
   (C7_amended dbPending [allocC1, allocC7] (by simp)).2.2.2⟩

/-- `resource_manager.ClusterInfo` accounting fields (the timestamps and
the embedded `models.Cluster`, which carry no accounting weight, are
omitted). -/
structure ClusterInfo where
  totalGPUs : Int
  availableGPUs : Int
  activeJobs : Int
  deriving Repr, DecidableEq

/-- Lookup in the `clusters` map, modelled as an association list. -/
def findCluster : List (String × ClusterInfo) → String → Option ClusterInfo
  | [], _ => none
  | (id', info) :: rest, id =>
      if id' = id then some info else findCluster rest id

/-- In-place update of one cluster's entry. -/
def updateCluster : List (String × ClusterInfo) → String → ClusterInfo →
    List (String × ClusterInfo)
  | [], _, _ => []
  | (id', info') :: rest, id, info =>
      if id' = id then (id', info) :: rest
      else (id', info') :: updateCluster rest id info

/-- `ClusterPool.ReserveGPUs`: fails when the cluster is unknown or
`availableGPUs < gpus`; otherwise decrements available and increments
active jobs. -/
def reserveGPUs (pool : List (String × ClusterInfo)) (clusterID : String)
    (gpus : Int) : Except String (List (String × ClusterInfo)) :=
  match findCluster pool clusterID with
  | none => Except.error "cluster not found"
  | some info =>
      if info.availableGPUs < gpus then
        Except.error "not enough GPUs available"
      else
        Except.ok (updateCluster pool clusterID
          { info with availableGPUs := info.availableGPUs - gpus,
                      activeJobs := info.activeJobs + 1 })

/-- `ClusterPool.ReleaseGPUs`: adds the GPUs back unconditionally (no cap
at `totalGPUs`) and decrements active jobs, flooring at 0. -/
def releaseGPUs (pool : List (String × ClusterInfo)) (clusterID : String)
    (gpus : Int) : Except String (List (String × ClusterInfo)) :=
  match findCluster pool clusterID with
  | none => Except.error "cluster not found"
  | some info =>
      let aj := info.activeJobs - 1
      Except.ok (updateCluster pool clusterID
        { info with availableGPUs := info.availableGPUs + gpus,
                    activeJobs := if aj < 0 then 0 else aj })

/-- One reserve or release call. -/
inductive PoolOp where
  | reserve (clusterID : String) (gpus : Int)
  | release (clusterID : String) (gpus : Int)

/-- The GPU argument of a pool operation. -/
def PoolOp.gpus : PoolOp → Int
  | reserve _ g => g
  | release _ g => g

/-- Apply one operation; a returned error leaves the pool unchanged. -/
def poolStep (pool : List (String × ClusterInfo)) (op : PoolOp) :
    List (String × ClusterInfo) :=
  match op with
  | PoolOp.reserve id g =>
      match reserveGPUs pool id g with
      | Except.ok p => p
      | Except.error _ => pool
  | PoolOp.release id g =>
      match releaseGPUs pool id g with
      | Except.ok p => p
      | Except.error _ => pool

/-- Run a sequence of reserve/release operations. -/
def runPool (pool : List (String × ClusterInfo)) (ops : List PoolOp) :
    List (String × ClusterInfo) :=
  ops.foldl poolStep pool

/-- Every entry of `active_jobs` and `available_gpus` is non-negative. -/
def PoolNonneg (pool : List (String × ClusterInfo)) : Prop :=
  ∀ e ∈ pool, 0 ≤ e.2.activeJobs ∧ 0 ≤ e.2.availableGPUs

/-- Every entry satisfies `available_gpus ≤ total_gpus`. -/
def PoolBounded (pool : List (String × ClusterInfo)) : Prop :=
  ∀ e ∈ pool, e.2.availableGPUs ≤ e.2.totalGPUs

/-- A pool with one cluster of 8 GPUs, all available, no jobs. -/
def pool8 : List (String × ClusterInfo) :=
  [("c1", { totalGPUs := 8, availableGPUs := 8, activeJobs := 0 })]

/-- C8: an unmatched `ReleaseGPUs` call pushes `available_gpus` above
`total_gpus` — the upper bound of the claimed invariant is not enforced. -/
theorem C8_counterexample :
    runPool pool8 [PoolOp.release "c1" 1] =
      [("c1", { totalGPUs := 8, availableGPUs := 9, activeJobs := 0 })] ∧
    ¬ ((9 : Int) ≤ 8) := by
  refine ⟨?_, by decide⟩
  simp [runPool, poolStep, releaseGPUs, findCluster, updateCluster, pool8]

theorem mem_updateCluster (pool : List (String × ClusterInfo)) (id : String)
    (info : ClusterInfo) (e : String × ClusterInfo)
    (h : e ∈ updateCluster pool id info) : e.2 = info ∨ e ∈ pool := by
  induction pool with
  | nil => simp [updateCluster] at h
  | cons p rest ih =>
    obtain ⟨id', info'⟩ := p
    simp only [updateCluster] at h
    split at h
    · rcases List.mem_cons.mp h with h | h
      · exact Or.inl (by rw [h])
      · exact Or.inr (List.mem_cons_of_mem _ h)
    · rcases List.mem_cons.mp h with h | h
      · exact Or.inr (by rw [h]; exact List.mem_cons_self _ _)
      · rcases ih h with h' | h'
        · exact Or.inl h'
        · exact Or.inr (List.mem_cons_of_mem _ h')

theorem findCluster_mem (pool : List (String × ClusterInfo)) (id : String)
    (info : ClusterInfo) (h : findCluster pool id = some info) :
    ∃ id', (id', info) ∈ pool := by
  induction pool with
  | nil => simp [findCluster] at h
  | cons p rest ih =>
    obtain ⟨id', info'⟩ := p
    simp only [findCluster] at h
    split at h
    · exact ⟨id', by simp [← Option.some_inj.mp h]⟩
    · obtain ⟨id'', h''⟩ := ih h
      exact ⟨id'', List.mem_cons_of_mem _ h''⟩

theorem poolStep_nonneg (pool : List (String × ClusterInfo)) (op : PoolOp)
    (hg : 0 ≤ op.gpus) (hinv : PoolNonneg pool) :
    PoolNonneg (poolStep pool op) := by
  cases op with
  | reserve id g =>
    simp only [PoolOp.gpus] at hg
    rcases hf : findCluster pool id with _ | info
    · simp only [poolStep, reserveGPUs, hf]
      exact hinv
    · simp only [poolStep, reserveGPUs, hf]
      by_cases hlt : info.availableGPUs < g
      · rw [if_pos hlt]
        exact hinv
      · rw [if_neg hlt]
        intro e he
        rcases mem_updateCluster _ _ _ _ he with h | h
        · obtain ⟨id', hmem⟩ := findCluster_mem _ _ _ hf
          obtain ⟨h1, h2⟩ := hinv _ hmem
          simp only [] at h1 h2
          rw [h]
          constructor <;> simp <;> omega
        · exact hinv _ h
  | release id g =>
    simp only [PoolOp.gpus] at hg
    rcases hf : findCluster pool id with _ | info
    · simp only [poolStep, releaseGPUs, hf]
      exact hinv
    · simp only [poolStep, releaseGPUs, hf]
      intro e he
      rcases mem_updateCluster _ _ _ _ he with h | h
      · obtain ⟨id', hmem⟩ := findCluster_mem _ _ _ hf
        obtain ⟨h1, h2⟩ := hinv _ hmem
        simp only [] at h1 h2
        rw [h]
        constructor
        · simp only []
          split <;> omega
        · simp
          omega
      · exact hinv _ h

/-- C8 (amended): reserve/release with non-negative GPU arguments
preserve `active_jobs ≥ 0` and `available_gpus ≥ 0`; a reserve request
exceeding the available GPUs fails and leaves the pool unchanged; and
`ReserveGPUs` also preserves `available_gpus ≤ total_gpus` — but
`ReleaseGPUs` does not (see the counterexample), so the two-sided bound
claimed for arbitrary operation sequences fails. -/
theorem C8_amended (pool : List (String × ClusterInfo)) (ops : List PoolOp)
    (hg : ∀ op ∈ ops, 0 ≤ op.gpus) (hinv : PoolNonneg pool) :
    PoolNonneg (runPool pool ops) ∧
    (∀ id g info, findCluster pool id = some info →
      info.availableGPUs < g →
      reserveGPUs pool id g = Except.error "not enough GPUs available" ∧
      poolStep pool (PoolOp.reserve id g) = pool) ∧
    (∀ id g, 0 ≤ g → PoolBounded pool →
      PoolBounded (poolStep pool (PoolOp.reserve id g))) := by
  refine ⟨?_, ?_, ?_⟩
  · induction ops generalizing pool with
    | nil => exact hinv
    | cons op rest ih =>
      have h1 := poolStep_nonneg pool op (hg op (List.mem_cons_self _ _)) hinv
      exact ih (poolStep pool op)
        (fun o ho => hg o (List.mem_cons_of_mem _ ho)) h1
  · intro id g info hf hlt
    constructor
    · simp only [reserveGPUs, hf, hlt, if_pos]
    · simp only [poolStep, reserveGPUs, hf, hlt, if_pos]
  · intro id g hg0 hbd
    cases hf : findCluster pool id with
    | none => simpa only [poolStep, reserveGPUs, hf] using hbd
    | some info =>
      by_cases hlt : info.availableGPUs < g
      · simp only [poolStep, reserveGPUs, hf]
        rw [if_pos hlt]
        exact hbd
      · simp only [poolStep, reserveGPUs, hf]
        rw [if_neg hlt]
        intro e he
        rcases mem_updateCluster _ _ _ _ he with h | h
        · obtain ⟨id', hmem⟩ := findCluster_mem _ _ _ hf
          have hb := hbd _ hmem
          simp only [] at hb
          rw [h]
          simp
          omega
        · exact hbd _ h

/-- C8 amended, witnessed: a reserve of 4 then a matching release keep
the invariant on `pool8`, and a 9-GPU reserve fails unchanged. -/
theorem C8_amended_witness :
    PoolNonneg (runPool pool8 [PoolOp.reserve "c1" 4, PoolOp.release "c1" 4]) ∧
    reserveGPUs pool8 "c1" 9 = Except.error "not enough GPUs available" ∧
    poolStep pool8 (PoolOp.reserve "c1" 9) = pool8 := by
  have h := C8_amended pool8 [PoolOp.reserve "c1" 4, PoolOp.release "c1" 4]
    (by intro op hop; fin_cases hop <;> simp [PoolOp.gpus])
    (by intro e he; fin_cases he; simp [pool8])
  refine ⟨h.1, ?_, ?_⟩
  · exact (h.2.1 "c1" 9
      { totalGPUs := 8, availableGPUs := 8, activeJobs := 0 }
      (by simp [pool8, findCluster]) (by decide)).1
  · exact (h.2.1 "c1" 9
      { totalGPUs := 8, availableGPUs := 8, activeJobs := 0 }
      (by simp [pool8, findCluster]) (by decide)).2

/-- `resource_manager.JobGPUAllocation`: a job's share of one GPU. -/
structure JobGPUAllocation where
  jobID : String
  gpuFraction : ℚ
  memoryGB : Int
  migInstance : String
  deriving Repr, DecidableEq

/-- `resource_manager.GPUAllocation`: the per-physical-GPU ledger entry. -/
structure GPUAllocation where
  gpuID : String
  nodeID : String
  provider : String
  gpuType : String
  totalMemory : Int
  usedMemory : Int
  allocations : List JobGPUAllocation
  migEnabled : Bool
  migProfile : String
  timeSlicing : Bool
  deriving Repr, DecidableEq

/-- The fields of `models.Job`/`JobRequirements` consumed by the GPU
Sharing Manager. -/
structure SharingJob where
  id : String
  useMIG : Bool
  migProfile : String
  gpuFraction : ℚ
  gpuMemory : Int
  deriving Repr, DecidableEq

/-- The fields of `models.Node` consumed by the GPU Sharing Manager. -/
structure SharingNode where
  id : String
  provider : String
  deriving Repr, DecidableEq

/-- `fmt.Sprintf("gpu-%s-0", node.ID)`. -/
def gpuIDFor (nodeID : String) : String := "gpu-" ++ nodeID ++ "-0"

/-- Σ fractions over a job-allocation list. -/
def sumFractions (l : List JobGPUAllocation) : ℚ :=
  (l.map JobGPUAllocation.gpuFraction).sum

/-- Σ memory over a job-allocation list. -/
def sumMemory (l : List JobGPUAllocation) : Int :=
  (l.map JobGPUAllocation.memoryGB).sum

/-- Lookup in the `gpuAllocations` map, modelled as an association list. -/
def findGPU : List (String × GPUAllocation) → String → Option GPUAllocation
  | [], _ => none
  | (id', ga) :: rest, id => if id' = id then some ga else findGPU rest id

/-- Replace one GPU's entry (mutation through the map's pointer). -/
def updateGPU : List (String × GPUAllocation) → String → GPUAllocation →
    List (String × GPUAllocation)
  | [], _, _ => []
  | (id', ga') :: rest, id, ga =>
      if id' = id then (id', ga) :: rest
      else (id', ga') :: updateGPU rest id ga

/-- `gsm.gpuAllocations[gpuID] = ga` (update-or-append map assignment). -/
def setGPU : List (String × GPUAllocation) → String → GPUAllocation →
    List (String × GPUAllocation)
  | [], id, ga => [(id, ga)]
  | (id', ga') :: rest, id, ga =>
      if id' = id then (id', ga) :: rest
      else (id', ga') :: setGPU rest id ga

/-- The fresh time-sliced T4 entry created by `allocateFractionalGPU`
for a previously unseen GPU. -/
def freshFractionalGA (gpuID nodeID provider : String) : GPUAllocation :=
  { gpuID := gpuID, nodeID := nodeID, provider := provider, gpuType := "T4",
    totalMemory := 16, usedMemory := 0, allocations := [],
    migEnabled := false, migProfile := "", timeSlicing := true }

/-- `GPUSharingManager.allocateFractionalGPU`: get-or-create the GPU's
time-sliced entry (the created empty entry is stored in the map *before*
the capacity checks, as in the source), reject on fraction or memory
over-capacity, else append the job's share. -/
def allocateFractionalGPU (ledger : List (String × GPUAllocation))
    (job : SharingJob) (node : SharingNode) :
    Except String GPUAllocation × List (String × GPUAllocation) :=
  let gpuID := gpuIDFor node.id
  let got :=
    match findGPU ledger gpuID with
    | some ga => (ga, ledger)
    | none =>
        let ga := freshFractionalGA gpuID node.id node.provider
        (ga, ledger ++ [(gpuID, ga)])
  let existing := got.1
  let ledger1 := got.2
  let usedFraction := sumFractions existing.allocations
  let usedMemory := sumMemory existing.allocations
  if 1 < usedFraction + job.gpuFraction then
    (Except.error "insufficient GPU capacity", ledger1)
  else if existing.totalMemory < usedMemory + job.gpuMemory then
    (Except.error "insufficient GPU memory", ledger1)
  else
    let jobAlloc : JobGPUAllocation :=
      { jobID := job.id, gpuFraction := job.gpuFraction,
        memoryGB := job.gpuMemory, migInstance := "" }
    let ga' := { existing with
      allocations := existing.allocations ++ [jobAlloc],
      usedMemory := existing.usedMemory + job.gpuMemory }
    (Except.ok ga', updateGPU ledger1 gpuID ga')

/-- `GPUSharingManager.allocateFullGPU`: overwrite the GPU's entry with a
whole-GPU allocation sized by the job's memory requirement. -/
def allocateFullGPU (ledger : List (String × GPUAllocation))
    (job : SharingJob) (node : SharingNode) :
    Except String GPUAllocation × List (String × GPUAllocation) :=
  let gpuID := gpuIDFor node.id
  let allocation : GPUAllocation :=
    { gpuID := gpuID, nodeID := node.id, provider := node.provider,
      gpuType := "V100", totalMemory := job.gpuMemory,
      usedMemory := job.gpuMemory,
      allocations := [{ jobID := job.id, gpuFraction := 1,
                        memoryGB := job.gpuMemory, migInstance := "" }],
      migEnabled := false, migProfile := "", timeSlicing := false }
  (Except.ok allocation, setGPU ledger gpuID allocation)

/-- `GPUSharingManager.allocateMIG`: requires a MIG profile; the
placeholder allocation it returns is never stored in the ledger. -/
def allocateMIG (ledger : List (String × GPUAllocation))
    (job : SharingJob) (node : SharingNode) :
    Except String GPUAllocation × List (String × GPUAllocation) :=
  if job.migProfile = "" then
    (Except.error "MIG profile required when UseMIG is true", ledger)
  else
    (Except.ok
      { gpuID := gpuIDFor node.id, nodeID := node.id,
        provider := node.provider, gpuType := "A100", totalMemory := 0,
        usedMemory := 0,
        allocations := [{ jobID := job.id, gpuFraction := 1,
                          memoryGB := 10, migInstance := "MIG-GPU-0/1/0" }],
        migEnabled := true, migProfile := job.migProfile,
        timeSlicing := false }, ledger)

/-- `GPUSharingManager.AllocateGPU`: dispatch on MIG / fractional / full. -/
def allocateGPU (ledger : List (String × GPUAllocation))
    (job : SharingJob) (node : SharingNode) :
    Except String GPUAllocation × List (String × GPUAllocation) :=
  if job.useMIG then allocateMIG ledger job node
  else if job.gpuFraction < 1 then allocateFractionalGPU ledger job node
  else allocateFullGPU ledger job node

/-- Remove the first job allocation with the given job id, returning it
and the remaining list. -/
def removeJobAlloc (jobID : String) : List JobGPUAllocation →
    Option (JobGPUAllocation × List JobGPUAllocation)
  | [] => none
  | ja :: rest =>
      if ja.jobID = jobID then some (ja, rest)
      else (removeJobAlloc jobID rest).map fun p => (p.1, ja :: p.2)

/-- `GPUSharingManager.ReleaseGPU`: remove the job's first allocation,
subtract its memory, and delete the GPU entry when it becomes empty. -/
def releaseGPU (ledger : List (String × GPUAllocation)) (jobID : String) :
    Except String Unit × List (String × GPUAllocation) :=
  match ledger with
  | [] => (Except.error "GPU allocation not found", [])
  | (gid, ga) :: rest =>
      match removeJobAlloc jobID ga.allocations with
      | some p =>
          if p.2 = [] then (Except.ok (), rest)
          else
            (Except.ok (),
              (gid, { ga with allocations := p.2,
                              usedMemory := ga.usedMemory - p.1.memoryGB }) :: rest)
      | none =>
          let r := releaseGPU rest jobID
          (r.1, (gid, ga) :: r.2)

/-- One GPU-sharing operation. -/
inductive ShareOp where
  | alloc (job : SharingJob) (node : SharingNode)
  | release (jobID : String)

/-- Requirement on an operation's inputs: the documented ranges
(`GPUFraction` in 0.0–1.0, memory in GB) are non-negative. -/
def ShareOp.wf : ShareOp → Prop
  | alloc job _ => 0 ≤ job.gpuFraction ∧ 0 ≤ job.gpuMemory
  | release _ => True

/-- Apply one operation to the ledger. -/
def shareStep (ledger : List (String × GPUAllocation)) (op : ShareOp) :
    List (String × GPUAllocation) :=
  match op with
  | ShareOp.alloc job node => (allocateGPU ledger job node).2
  | ShareOp.release jobID => (releaseGPU ledger jobID).2

/-- Run a sequence of sharing operations. -/
def runShare (ledger : List (String × GPUAllocation)) (ops : List ShareOp) :
    List (String × GPUAllocation) :=
  ops.foldl shareStep ledger

/-- Safety of one ledger entry: Σ fractions ≤ 1, Σ memory ≤ total, and
every recorded share is non-negative. -/
def GAInv (ga : GPUAllocation) : Prop :=
  sumFractions ga.allocations ≤ 1 ∧
  sumMemory ga.allocations ≤ ga.totalMemory ∧
  ∀ ja ∈ ga.allocations, 0 ≤ ja.gpuFraction ∧ 0 ≤ ja.memoryGB

/-- Safety of the whole ledger. -/
def LedgerInv (ledger : List (String × GPUAllocation)) : Prop :=
  ∀ e ∈ ledger, GAInv e.2

theorem findGPU_mem (ledger : List (String × GPUAllocation)) (id : String)
    (ga : GPUAllocation) (h : findGPU ledger id = some ga) :
    ∃ id', (id', ga) ∈ ledger := by
  induction ledger with
  | nil => simp [findGPU] at h
  | cons p rest ih =>
    obtain ⟨id', ga'⟩ := p
    simp only [findGPU] at h
    split at h
    · exact ⟨id', by simp [← Option.some_inj.mp h]⟩
    · obtain ⟨id'', h''⟩ := ih h
      exact ⟨id'', List.mem_cons_of_mem _ h''⟩

theorem mem_updateGPU (ledger : List (String × GPUAllocation)) (id : String)
    (ga : GPUAllocation) (e : String × GPUAllocation)
    (h : e ∈ updateGPU ledger id ga) : e.2 = ga ∨ e ∈ ledger := by
  induction ledger with
  | nil => simp [updateGPU] at h
  | cons p rest ih =>
    obtain ⟨id', ga'⟩ := p
    simp only [updateGPU] at h
    split at h
    · rcases List.mem_cons.mp h with h | h
      · exact Or.inl (by rw [h])
      · exact Or.inr (List.mem_cons_of_mem _ h)
    · rcases List.mem_cons.mp h with h | h
      · exact Or.inr (by rw [h]; exact List.mem_cons_self _ _)
      · rcases ih h with h' | h'
        · exact Or.inl h'
        · exact Or.inr (List.mem_cons_of_mem _ h')

theorem mem_setGPU (ledger : List (String × GPUAllocation)) (id : String)
    (ga : GPUAllocation) (e : String × GPUAllocation)
    (h : e ∈ setGPU ledger id ga) : e.2 = ga ∨ e ∈ ledger := by
  induction ledger with
  | nil =>
    simp only [setGPU] at h
    rcases List.mem_cons.mp h with h | h
    · exact Or.inl (by rw [h])
    · simp at h
  | cons p rest ih =>
    obtain ⟨id', ga'⟩ := p
    simp only [setGPU] at h
    split at h
    · rcases List.mem_cons.mp h with h | h
      · exact Or.inl (by rw [h])
      · exact Or.inr (List.mem_cons_of_mem _ h)
    · rcases List.mem_cons.mp h with h | h
      · exact Or.inr (by rw [h]; exact List.mem_cons_self _ _)
      · rcases ih h with h' | h'
        · exact Or.inl h'
        · exact Or.inr (List.mem_cons_of_mem _ h')

theorem removeJobAlloc_spec (jobID : String) (l : List JobGPUAllocation)
    (ja : JobGPUAllocation) (rem : List JobGPUAllocation)
    (h : removeJobAlloc jobID l = some (ja, rem)) :
    sumFractions l = ja.gpuFraction + sumFractions rem ∧
    sumMemory l = ja.memoryGB + sumMemory rem ∧
    ja ∈ l ∧ ∀ x ∈ rem, x ∈ l := by
  induction l generalizing ja rem with
  | nil => simp [removeJobAlloc] at h
  | cons a rest ih =>
    simp only [removeJobAlloc] at h
    split at h
    · obtain ⟨h1, h2⟩ := Prod.mk.injEq .. ▸ Option.some_inj.mp h
      subst h1; subst h2
      refine ⟨by simp [sumFractions], by simp [sumMemory],
        List.mem_cons_self _ _, fun x hx => List.mem_cons_of_mem _ hx⟩
    · rcases ho : removeJobAlloc jobID rest with _ | p
      · rw [ho] at h; simp at h
      · rw [ho] at h
        simp only [Option.map_some'] at h
        obtain ⟨h1, h2⟩ := Prod.mk.injEq .. ▸ Option.some_inj.mp h
        obtain ⟨p1, p2⟩ := p
        simp only [] at h1 h2
        subst h1
        obtain ⟨hf, hm, hmem, hsub⟩ := ih p1 p2 ho
        subst h2
        refine ⟨?_, ?_, List.mem_cons_of_mem _ hmem, ?_⟩
        · simp [sumFractions] at hf ⊢
          rw [hf]; ring
        · simp [sumMemory] at hm ⊢
          rw [hm]; ring
        · intro x hx
          rcases List.mem_cons.mp hx with hx | hx
          · exact hx ▸ List.mem_cons_self _ _
          · exact List.mem_cons_of_mem _ (hsub x hx)

theorem allocateFractionalGPU_inv (ledger : List (String × GPUAllocation))
    (job : SharingJob) (node : SharingNode)
    (hf0 : 0 ≤ job.gpuFraction) (hm0 : 0 ≤ job.gpuMemory)
    (hinv : LedgerInv ledger) :
    LedgerInv (allocateFractionalGPU ledger job node).2 := by
  simp only [allocateFractionalGPU]
  rcases hf : findGPU ledger (gpuIDFor node.id) with _ | ga
  all_goals simp only [hf]
  -- fresh entry: `got = (fresh, ledger ++ [(gpuID, fresh)])`
  · have hfresh : GAInv (freshFractionalGA (gpuIDFor node.id) node.id
        node.provider) := by
      refine ⟨by simp [sumFractions, freshFractionalGA], ?_, by
        simp [freshFractionalGA]⟩
      simp [sumMemory, freshFractionalGA]
    have hledger1 : LedgerInv (ledger ++
        [(gpuIDFor node.id, freshFractionalGA (gpuIDFor node.id) node.id
          node.provider)]) := by
      intro e he
      rcases List.mem_append.mp he with he | he
      · exact hinv _ he
      · simp only [List.mem_singleton] at he
        rw [he]
        exact hfresh
    split
    · exact hledger1
    · split
      · exact hledger1
      · rename_i hcap hmem
        intro e he
        rcases mem_updateGPU _ _ _ _ he with h | h
        · rw [h]
          refine ⟨?_, ?_, ?_⟩
          · simp only [freshFractionalGA, sumFractions, List.map_append,
              List.sum_append] at hcap ⊢
            simp only [not_lt] at hcap
            simpa [sumFractions] using hcap
          · simp only [freshFractionalGA, sumMemory, List.map_append,
              List.sum_append] at hmem ⊢
            simp only [not_lt] at hmem
            simpa [sumMemory] using hmem
          · intro ja hja
            simp only [freshFractionalGA, List.nil_append,
              List.mem_singleton] at hja
            rw [hja]
            exact ⟨hf0, hm0⟩
        · exact hledger1 _ h
  -- existing entry: `got = (ga, ledger)`
  · have hga : GAInv ga := by
      obtain ⟨id', hmem⟩ := findGPU_mem _ _ _ hf
      exact hinv _ hmem
    split
    · exact hinv
    · split
      · exact hinv
      · rename_i hcap hmem
        intro e he
        rcases mem_updateGPU _ _ _ _ he with h | h
        · rw [h]
          obtain ⟨hg1, hg2, hg3⟩ := hga
          refine ⟨?_, ?_, ?_⟩
          · simp only [not_lt] at hcap
            simpa [sumFractions] using hcap
          · simp only [not_lt] at hmem
            simpa [sumMemory] using hmem
          · intro ja hja
            rcases List.mem_append.mp hja with hja | hja
            · exact hg3 _ hja
            · simp only [List.mem_singleton] at hja
              rw [hja]
              exact ⟨hf0, hm0⟩
        · exact hinv _ h

theorem allocateFullGPU_inv (ledger : List (String × GPUAllocation))
    (job : SharingJob) (node : SharingNode) (hm0 : 0 ≤ job.gpuMemory)
    (hinv : LedgerInv ledger) :
    LedgerInv (allocateFullGPU ledger job node).2 := by
  simp only [allocateFullGPU]
  intro e he
  rcases mem_setGPU _ _ _ _ he with h | h
  · rw [h]
    refine ⟨by simp [sumFractions], by simp [sumMemory], ?_⟩
    intro ja hja
    simp only [List.mem_singleton] at hja
    rw [hja]
    exact ⟨by norm_num, hm0⟩
  · exact hinv _ h

theorem releaseGPU_inv (ledger : List (String × GPUAllocation))
    (jobID : String) (hinv : LedgerInv ledger) :
    LedgerInv (releaseGPU ledger jobID).2 := by
  induction ledger with
  | nil => simpa [releaseGPU] using hinv
  | cons p rest ih =>
    obtain ⟨gid, ga⟩ := p
    have hga : GAInv ga := hinv _ (List.mem_cons_self _ _)
    have hrest : LedgerInv rest := fun e he =>
      hinv _ (List.mem_cons_of_mem _ he)
    rcases hr : removeJobAlloc jobID ga.allocations with _ | ⟨ja, rem⟩
    · simp only [releaseGPU, hr]
      intro e he
      rcases List.mem_cons.mp he with h | h
      · rw [h]; exact hga
      · exact ih hrest _ h
    · obtain ⟨hf, hm, hmem, hsub⟩ := removeJobAlloc_spec _ _ _ _ hr
      obtain ⟨hg1, hg2, hg3⟩ := hga
      obtain ⟨hjf, hjm⟩ := hg3 _ hmem
      by_cases hrem : rem = []
      · simp only [releaseGPU, hr, hrem]
        simpa using hrest
      · simp only [releaseGPU, hr, if_neg hrem]
        intro e he
        rcases List.mem_cons.mp he with h | h
        · rw [h]
          refine ⟨?_, ?_, fun x hx => hg3 _ (hsub x hx)⟩
          · simp only []
            rw [hf] at hg1
            linarith
          · simp only []
            rw [hm] at hg2
            omega
        · exact hrest _ h

theorem shareStep_inv (ledger : List (String × GPUAllocation))
    (op : ShareOp) (hwf : op.wf) (hinv : LedgerInv ledger) :
    LedgerInv (shareStep ledger op) := by
  cases op with
  | alloc job node =>
    obtain ⟨hf0, hm0⟩ := hwf
    simp only [shareStep, allocateGPU]
    split
    · simp only [allocateMIG]
      split
      · exact hinv
      · exact hinv
    · split
      · exact allocateFractionalGPU_inv ledger job node hf0 hm0 hinv
      · exact allocateFullGPU_inv ledger job node hm0 hinv
  | release jobID => exact releaseGPU_inv ledger jobID hinv

/-- C9 (amended): with the documented non-negative fraction and memory
inputs, every reachable ledger satisfies Σ fractions ≤ 1 and
Σ memory ≤ total_memory per GPU; a fractional request on an
already-tracked GPU whose fraction or memory would overflow is rejected
with an error and leaves the ledger unchanged.  (For a previously unseen
GPU the code inserts an empty entry before the capacity checks, so a
rejection there does change the ledger — see the counterexample.) -/
theorem C9_amended (ledger : List (String × GPUAllocation))
    (ops : List ShareOp) (hwf : ∀ op ∈ ops, op.wf)
    (hinv : LedgerInv ledger) :
    (∀ e ∈ runShare ledger ops,
      sumFractions e.2.allocations ≤ 1 ∧
      sumMemory e.2.allocations ≤ e.2.totalMemory) ∧
    (∀ (job : SharingJob) (node : SharingNode) (ga : GPUAllocation),
      findGPU ledger (gpuIDFor node.id) = some ga →
      (1 < sumFractions ga.allocations + job.gpuFraction ∨
       ga.totalMemory < sumMemory ga.allocations + job.gpuMemory) →
      (allocateFractionalGPU ledger job node).1.isOk = false ∧
      (allocateFractionalGPU ledger job node).2 = ledger) := by
  constructor
  · have hrun : LedgerInv (runShare ledger ops) := by
      induction ops generalizing ledger with
      | nil => exact hinv
      | cons op rest ih =>
        exact ih (shareStep ledger op)
          (fun o ho => hwf o (List.mem_cons_of_mem _ ho))
          (shareStep_inv ledger op (hwf op (List.mem_cons_self _ _)) hinv)
    exact fun e he => ⟨(hrun e he).1, (hrun e he).2.1⟩
  · intro job node ga hf hover
    simp only [allocateFractionalGPU, hf]
    by_cases hcap : 1 < sumFractions ga.allocations + job.gpuFraction
    · rw [if_pos hcap]
      exact ⟨rfl, rfl⟩
    · rw [if_neg hcap]
      have hmem : ga.totalMemory <
          sumMemory ga.allocations + job.gpuMemory := by
        rcases hover with h | h
        · exact absurd h hcap
        · exact h
      rw [if_pos hmem]
      exact ⟨rfl, rfl⟩

/-- A ledger with one T4 GPU half-used by job jA. -/
def gaHalf : GPUAllocation :=
  { gpuID := "gpu-n1-0", nodeID := "n1", provider := "onprem",
    gpuType := "T4", totalMemory := 16, usedMemory := 8,
    allocations := [{ jobID := "jA", gpuFraction := 1 / 2, memoryGB := 8,
                      migInstance := "" }],
    migEnabled := false, migProfile := "", timeSlicing := true }

/-- A fractional job asking for 0.6 of a GPU and 8 GB. -/
def jobB : SharingJob :=
  { id := "jB", useMIG := false, migProfile := "", gpuFraction := 3 / 5,
    gpuMemory := 8 }

/-- The node hosting `gpu-n1-0`. -/
def nodeN1 : SharingNode := { id := "n1", provider := "onprem" }

/-- C9 amended, witnessed: job jB's 0.6 fraction on the half-used GPU is
rejected (0.5 + 0.6 > 1) with the ledger unchanged, and the invariant
holds after allocating and releasing jA. -/
theorem C9_amended_witness :
    (∀ e ∈ runShare [("gpu-n1-0", gaHalf)]
        [ShareOp.release "jA"],
      sumFractions e.2.allocations ≤ 1 ∧
      sumMemory e.2.allocations ≤ e.2.totalMemory) ∧
    (allocateFractionalGPU [("gpu-n1-0", gaHalf)] jobB nodeN1).1.isOk =
      false ∧
    (allocateFractionalGPU [("gpu-n1-0", gaHalf)] jobB nodeN1).2 =
      [("gpu-n1-0", gaHalf)] := by
  have h := C9_amended [("gpu-n1-0", gaHalf)] [ShareOp.release "jA"]
    (by intro op hop; fin_cases hop; trivial)
    (by
      intro e he
      fin_cases he
      refine ⟨by norm_num [sumFractions, gaHalf], ?_, ?_⟩
      · norm_num [sumMemory, gaHalf]
      · intro ja hja
        fin_cases hja
        norm_num)
  have h2 := h.2 jobB nodeN1 gaHalf
    (by simp [findGPU, gpuIDFor, nodeN1])
    (by
      left
      norm_num [sumFractions, gaHalf, jobB])
  exact ⟨h.1, h2.1, h2.2⟩

/-- A fractional job whose memory demand exceeds the default 16 GB T4. -/
def jobC9 : SharingJob :=
  { id := "jC", useMIG := false, migProfile := "", gpuFraction := 1 / 2,
    gpuMemory := 20 }

/-- C9: on a previously unseen GPU the fractional allocator inserts an
empty ledger entry *before* its capacity checks, so this over-memory
request is rejected with a capacity error yet the ledger is no longer
unchanged — refuting the claim's parenthetical. -/
theorem C9_counterexample :
    (allocateFractionalGPU [] jobC9 nodeN1).1 =
      Except.error "insufficient GPU memory" ∧
    (allocateFractionalGPU [] jobC9 nodeN1).2 =
      [("gpu-n1-0", freshFractionalGA "gpu-n1-0" "n1" "onprem")] ∧
    [("gpu-n1-0", freshFractionalGA "gpu-n1-0" "n1" "onprem")] ≠
      ([] : List (String × GPUAllocation)) := by
  refine ⟨?_, ?_, by simp⟩
  · simp [allocateFractionalGPU, findGPU, gpuIDFor, nodeN1, jobC9,
      freshFractionalGA, sumFractions, sumMemory]
    norm_num
  · simp [allocateFractionalGPU, findGPU, gpuIDFor, nodeN1, jobC9,
      freshFractionalGA, sumFractions, sumMemory]
    norm_num

/-- The GPU count of an instance type, looked up in the candidate set
(the spec's `gpus_per_instance(alloc.instance_type)`). -/
def gpusPerInstanceOf (cands : List GPUInstance) (t : String) : Int :=
  match cands.find? fun c => c.instanceType = t with
  | some c => c.gpusPerInstance
  | none => 0

/-- Σ alloc.count × gpus_per_instance(alloc.instance_type) over a plan. -/
def covered (cands : List GPUInstance) (allocs : List Allocation) : Int :=
  (allocs.map fun a => a.count * gpusPerInstanceOf cands a.instanceType).sum

theorem gpusPerInstanceOf_eq (cands : List GPUInstance) (inst : GPUInstance)
    (hmem : inst ∈ cands)
    (htype : ∀ c1 ∈ cands, ∀ c2 ∈ cands,
      c1.instanceType = c2.instanceType →
      c1.gpusPerInstance = c2.gpusPerInstance) :
    gpusPerInstanceOf cands inst.instanceType = inst.gpusPerInstance := by
  unfold gpusPerInstanceOf
  rcases hf : cands.find? fun c => c.instanceType = inst.instanceType with _ | c
  · exfalso
    have := List.find?_eq_none.mp hf inst hmem
    simp at this
  · rw [hf]
    have hc : c ∈ cands := List.mem_of_find?_eq_some hf
    have hct : c.instanceType = inst.instanceType := by
      have := List.find?_some hf
      simpa using this
    exact htype c hc inst hmem hct

/-- Go's `(a + g - 1) / g` (truncated division) covers `a`: the quotient
times `g` is at least `a`, for every integer `a` and positive `g`. -/
theorem tdiv_ceil_mul_ge (a g : Int) (hg : 0 < g) :
    a ≤ Int.tdiv (a + g - 1) g * g := by
  by_cases h0 : 0 ≤ a + g - 1
  · rw [Int.tdiv_eq_ediv h0 (le_of_lt hg)]
    have hmod := Int.emod_lt_of_pos (a + g - 1) hg
    have hdiv := Int.ediv_add_emod (a + g - 1) g
    have hnn := Int.emod_nonneg (a + g - 1) (ne_of_gt hg)
    nlinarith [Int.ediv_add_emod (a + g - 1) g]
  · push_neg at h0
    have hneg : a + g - 1 < 0 := h0
    have h1 : Int.tdiv (a + g - 1) g = -Int.tdiv (-(a + g - 1)) g := by
      rw [← Int.neg_tdiv, neg_neg]
    rw [h1, Int.tdiv_eq_ediv (by omega) (le_of_lt hg)]
    have hle := Int.ediv_mul_le (-(a + g - 1)) (ne_of_gt hg)
    have hbridge : -(-(a + g - 1) / g) * g = -(-(a + g - 1) / g * g) := by
      ring
    omega

theorem greedyLoop_spec (requirements : JobRequirements)
    (constraints : JobConstraints) (cands : List GPUInstance)
    (hg : ∀ c ∈ cands, 0 < c.gpusPerInstance)
    (htype : ∀ c1 ∈ cands, ∀ c2 ∈ cands,
      c1.instanceType = c2.instanceType →
      c1.gpusPerInstance = c2.gpusPerInstance)
    (l : List GPUInstance) (rem : Int) (hsub : ∀ c ∈ l, c ∈ cands) :
    covered cands (greedyLoop requirements constraints rem l).1 =
      rem - (greedyLoop requirements constraints rem l).2 ∧
    (greedyLoop requirements constraints rem l).2 ≤ rem ∧
    ∀ a ∈ (greedyLoop requirements constraints rem l).1, 0 < a.count := by
  induction l generalizing rem with
  | nil => simp [greedyLoop, covered]
  | cons inst rest ih =>
    have hins : inst ∈ cands := hsub inst (List.mem_cons_self _ _)
    have hrest : ∀ c ∈ rest, c ∈ cands := fun c hc =>
      hsub c (List.mem_cons_of_mem _ hc)
    have hgpos : 0 < inst.gpusPerInstance := hg inst hins
    by_cases hrem : rem ≤ 0
    · simp [greedyLoop, hrem, covered]
    · by_cases hskip : 0 < requirements.maxGPUsPerNode ∧
          requirements.maxGPUsPerNode < inst.gpusPerInstance
      · simpa [greedyLoop, hrem, hskip] using ih rem hrest
      · by_cases hneed : 0 < Int.tdiv
            (rem + inst.gpusPerInstance - 1) inst.gpusPerInstance
        · by_cases hmn : requirements.requiresMultiNode ∧
              getMaxNodesForProvider inst.provider <
                Int.tdiv (rem + inst.gpusPerInstance - 1)
                  inst.gpusPerInstance
          · simpa [greedyLoop, hrem, hskip, hneed, hmn] using ih rem hrest
          · obtain ⟨ih1, ih2, ih3⟩ := ih
              (rem - Int.tdiv (rem + inst.gpusPerInstance - 1)
                inst.gpusPerInstance * inst.gpusPerInstance) hrest
            have hlk := gpusPerInstanceOf_eq cands inst hins htype
            simp only [greedyLoop, if_neg hrem, if_neg hskip, if_pos hneed,
              if_neg hmn]
            refine ⟨?_, ?_, ?_⟩
            · simp only [covered, List.map_cons, List.sum_cons] at ih1 ⊢
              rw [hlk, ih1]
              ring
            · have hpos : 0 < Int.tdiv (rem + inst.gpusPerInstance - 1)
                  inst.gpusPerInstance * inst.gpusPerInstance :=
                mul_pos hneed hgpos
              omega
            · intro a ha
              rcases List.mem_cons.mp ha with h | h
              · rw [h]
                exact hneed
              · exact ih3 a h
        · simpa [greedyLoop, hrem, hskip, hneed] using ih rem hrest

/-- The candidate list `cheapestStrategy` actually sorts and walks. -/
def effectiveCands (requirements : JobRequirements)
    (candidates : List GPUInstance) : List GPUInstance :=
  if requirements.executionMode = "single_cluster" ∧
      requirements.requiresMultiNode then
    filterMultiNodeCompatible requirements candidates
  else candidates

theorem effectiveCands_sub (requirements : JobRequirements)
    (candidates : List GPUInstance) (c : GPUInstance)
    (h : c ∈ effectiveCands requirements candidates) : c ∈ candidates := by
  unfold effectiveCands at h
  split at h
  · exact (List.mem_filter.mp h).1
  · exact h

theorem cheapestStrategy_spec (requirements : JobRequirements)
    (constraints : JobConstraints) (candidates : List GPUInstance)
    (hg : ∀ c ∈ candidates, 0 < c.gpusPerInstance)
    (htype : ∀ c1 ∈ candidates, ∀ c2 ∈ candidates,
      c1.instanceType = c2.instanceType →
      c1.gpusPerInstance = c2.gpusPerInstance) :
    ((cheapestStrategy requirements constraints candidates).allocation ≠ [] →
      requirements.gpus ≤ covered candidates
        (cheapestStrategy requirements constraints candidates).allocation ∧
      ∀ a ∈ (cheapestStrategy requirements constraints
        candidates).allocation, 0 < a.count) ∧
    (0 < (greedyLoop requirements constraints requirements.gpus
        (sortB (cheapestLess constraints.allowSpot)
          (effectiveCands requirements candidates))).2 →
      (cheapestStrategy requirements constraints candidates).allocation = []) := by
  have hsub : ∀ c ∈ sortB (cheapestLess constraints.allowSpot)
      (effectiveCands requirements candidates), c ∈ candidates := fun c hc =>
    effectiveCands_sub _ _ _ (mem_sortB _ _ _ hc)
  obtain ⟨h1, h2, h3⟩ := greedyLoop_spec requirements constraints candidates
    hg htype (sortB (cheapestLess constraints.allowSpot)
      (effectiveCands requirements candidates)) requirements.gpus hsub
  have hcs : cheapestStrategy requirements constraints candidates =
      (if 0 < (greedyLoop requirements constraints requirements.gpus
          (sortB (cheapestLess constraints.allowSpot)
            (effectiveCands requirements candidates))).2 then
        { Strategy.empty with allocation := [] }
      else
        { Strategy.empty with
          allocation := (greedyLoop requirements constraints
            requirements.gpus (sortB (cheapestLess constraints.allowSpot)
              (effectiveCands requirements candidates))).1 }) := by
    simp only [cheapestStrategy, effectiveCands]
  constructor
  · intro hne
    rw [hcs] at hne ⊢
    by_cases hpos : 0 < (greedyLoop requirements constraints
        requirements.gpus (sortB (cheapestLess constraints.allowSpot)
          (effectiveCands requirements candidates))).2
    · rw [if_pos hpos] at hne
      simp at hne
    · rw [if_neg hpos]
      rw [if_neg hpos] at hne
      refine ⟨?_, h3⟩
      rw [h1]
      omega
  · intro hpos
    rw [hcs, if_pos hpos]

theorem mem_insertGroup_snd (k : String) (i : GPUInstance)
    (gs : List (String × List GPUInstance)) (e : String × List GPUInstance)
    (he : e ∈ insertGroup k i gs) (x : GPUInstance) (hx : x ∈ e.2) :
    (∃ e' ∈ gs, x ∈ e'.2) ∨ x = i := by
  induction gs with
  | nil =>
    simp only [insertGroup, List.mem_singleton] at he
    rw [he] at hx
    simp only [List.mem_singleton] at hx
    exact Or.inr hx
  | cons g rest ih =>
    obtain ⟨k', is⟩ := g
    simp only [insertGroup] at he
    split at he
    · rcases List.mem_cons.mp he with h | h
      · rw [h] at hx
        simp only [] at hx
        rcases List.mem_append.mp hx with h' | h'
        · exact Or.inl ⟨(k', is), List.mem_cons_self _ _, h'⟩
        · simp only [List.mem_singleton] at h'
          exact Or.inr h'
      · exact Or.inl ⟨e, List.mem_cons_of_mem _ h, hx⟩
    · rcases List.mem_cons.mp he with h | h
      · rw [h] at hx
        exact Or.inl ⟨(k', is), List.mem_cons_self _ _, hx⟩
      · rcases ih h with ⟨e', he', hx'⟩ | h'
        · exact Or.inl ⟨e', List.mem_cons_of_mem _ he', hx'⟩
        · exact Or.inr h'

theorem insertGroup_ne_nil (k : String) (i : GPUInstance)
    (gs : List (String × List GPUInstance))
    (hgs : ∀ e ∈ gs, e.2 ≠ []) (e : String × List GPUInstance)
    (he : e ∈ insertGroup k i gs) : e.2 ≠ [] := by
  induction gs with
  | nil =>
    simp only [insertGroup, List.mem_singleton] at he
    rw [he]
    simp
  | cons g rest ih =>
    obtain ⟨k', is⟩ := g
    simp only [insertGroup] at he
    split at he
    · rcases List.mem_cons.mp he with h | h
      · rw [h]
        have := hgs (k', is) (List.mem_cons_self _ _)
        simp only [] at this ⊢
        simp [this]
      · exact hgs _ (List.mem_cons_of_mem _ h)
    · rcases List.mem_cons.mp he with h | h
      · rw [h]
        exact hgs (k', is) (List.mem_cons_self _ _)
      · exact ih (fun e' he' => hgs e' (List.mem_cons_of_mem _ he')) h

theorem foldl_insertGroup_spec (cands : List GPUInstance)
    (l : List GPUInstance) (gs : List (String × List GPUInstance))
    (hgs : ∀ e ∈ gs, e.2 ≠ [] ∧ ∀ x ∈ e.2, x ∈ cands)
    (hl : ∀ i ∈ l, i ∈ cands) :
    ∀ e ∈ l.foldl (fun gs i => insertGroup (regionKey i) i gs) gs,
      e.2 ≠ [] ∧ ∀ x ∈ e.2, x ∈ cands := by
  induction l generalizing gs with
  | nil => simpa using hgs
  | cons i rest ih =>
    simp only [List.foldl_cons]
    refine ih (insertGroup (regionKey i) i gs) ?_
      (fun j hj => hl j (List.mem_cons_of_mem _ hj))
    intro e he
    refine ⟨insertGroup_ne_nil _ _ _ (fun e' he' => (hgs e' he').1) e he, ?_⟩
    intro x hx
    rcases mem_insertGroup_snd _ _ _ _ he x hx with ⟨e', he', hx'⟩ | h
    · exact (hgs e' he').2 x hx'
    · rw [h]
      exact hl i (List.mem_cons_self _ _)

theorem groupByRegion_spec (cands : List GPUInstance) :
    ∀ e ∈ groupByRegion cands, e.2 ≠ [] ∧ ∀ x ∈ e.2, x ∈ cands :=
  foldl_insertGroup_spec cands cands [] (by simp) (fun _ h => h)

/-- The per-region task assignment summed by the geo loop from index `i`:
the last region (`m − 1`) gets the remainder, every other region gets
`tasksPerRegion`. -/
def taskSum (totalTasks tasksPerRegion : Int) (m : Nat) :
    Nat → List (String × List GPUInstance) → Int
  | _, [] => 0
  | i, _ :: rest =>
      (if i = m - 1 then totalTasks - tasksPerRegion * ((m : Int) - 1)
       else tasksPerRegion) +
        taskSum totalTasks tasksPerRegion m (i + 1) rest

theorem sortB_ne_nil (less : α → α → Bool) (l : List α) (h : l ≠ []) :
    sortB less l ≠ [] := by
  intro hs
  have := (perm_sortB less l).length_eq
  rw [hs] at this
  simp only [List.length_nil] at this
  exact h (List.eq_nil_of_length_eq_zero this.symm)

theorem geoAllocs_coverage (constraints : JobConstraints) (hours : ℚ)
    (total tpr : Int) (m : Nat) (cands : List GPUInstance)
    (hg : ∀ c ∈ cands, 0 < c.gpusPerInstance)
    (htype : ∀ c1 ∈ cands, ∀ c2 ∈ cands,
      c1.instanceType = c2.instanceType →
      c1.gpusPerInstance = c2.gpusPerInstance)
    (gs : List (String × List GPUInstance)) (i : Nat)
    (hgs : ∀ e ∈ gs, e.2 ≠ [] ∧ ∀ x ∈ e.2, x ∈ cands) :
    taskSum total tpr m i gs ≤
      covered cands (geoAllocs constraints hours total tpr m i gs) := by
  induction gs generalizing i with
  | nil => simp [taskSum, geoAllocs, covered]
  | cons g rest ih =>
    obtain ⟨key, insts⟩ := g
    obtain ⟨hne, hsubc⟩ := hgs (key, insts) (List.mem_cons_self _ _)
    have hrest : ∀ e ∈ rest, e.2 ≠ [] ∧ ∀ x ∈ e.2, x ∈ cands :=
      fun e he => hgs e (List.mem_cons_of_mem _ he)
    rcases hs : sortB (geoLess constraints.allowSpot) insts with _ | ⟨best, tail⟩
    · exact absurd hs (sortB_ne_nil _ _ (by simpa using hne))
    · have hbest : best ∈ cands :=
        hsubc best (mem_sortB _ _ _ (hs ▸ List.mem_cons_self _ _))
      have hbg : 0 < best.gpusPerInstance := hg best hbest
      have hlk := gpusPerInstanceOf_eq cands best hbest htype
      simp only [geoAllocs, hs, taskSum, covered, List.map_cons,
        List.sum_cons]
      have hcov := tdiv_ceil_mul_ge
        ((if i = m - 1 then total - tpr * ((m : Int) - 1) else tpr) * 1)
        best.gpusPerInstance hbg
      have hih := ih (i + 1) hrest
      simp only [covered] at hih
      rw [hlk]
      simp only [mul_one] at hcov ⊢
      omega

theorem taskSum_suffix (total tpr : Int) (m : Nat)
    (gs : List (String × List GPUInstance)) :
    ∀ (i : Nat), gs ≠ [] → i + gs.length = m →
    taskSum total tpr m i gs =
      tpr * ((gs.length : Int) - 1) + (total - tpr * ((m : Int) - 1)) := by
  induction gs with
  | nil => intro i h; exact absurd rfl h
  | cons g rest ih =>
    intro i _ hlen
    simp only [List.length_cons] at hlen
    by_cases hre : rest = []
    · subst hre
      have hi : i = m - 1 := by simp at hlen; omega
      simp only [taskSum, if_pos hi, List.length_cons, List.length_nil]
      push_cast
      ring
    · have hlen1 : 1 ≤ rest.length := List.length_pos.mpr hre
      have hi : ¬ i = m - 1 := by omega
      have hih := ih (i + 1) hre (by omega)
      simp only [taskSum, if_neg hi]
      rw [hih]
      simp only [List.length_cons]
      push_cast
      ring

theorem geoDistributed_coverage (requirements : JobRequirements)
    (constraints : JobConstraints) (candidates : List GPUInstance)
    (hg : ∀ c ∈ candidates, 0 < c.gpusPerInstance)
    (htype : ∀ c1 ∈ candidates, ∀ c2 ∈ candidates,
      c1.instanceType = c2.instanceType →
      c1.gpusPerInstance = c2.gpusPerInstance)
    (hne : (geoDistributedTaskStrategy requirements constraints
      candidates).allocation ≠ []) :
    requirements.gpus ≤ covered candidates
      (geoDistributedTaskStrategy requirements constraints
        candidates).allocation := by
  by_cases hgr : (groupByRegion candidates).length = 0
  · exfalso
    apply hne
    simp only [geoDistributedTaskStrategy, if_pos hgr]
    rfl
  · have hgs := groupByRegion_spec candidates
    have hgeo : (geoDistributedTaskStrategy requirements constraints
        candidates).allocation =
        geoAllocs constraints requirements.estimatedHours
          (if Int.tdiv requirements.gpus 1 = 0 then 1
           else Int.tdiv requirements.gpus 1)
          (if Int.tdiv (if Int.tdiv requirements.gpus 1 = 0 then 1
              else Int.tdiv requirements.gpus 1)
              ((groupByRegion candidates).length : Int) = 0 then 1
           else Int.tdiv (if Int.tdiv requirements.gpus 1 = 0 then 1
              else Int.tdiv requirements.gpus 1)
              ((groupByRegion candidates).length : Int))
          (groupByRegion candidates).length 0 (groupByRegion candidates) := by
      simp only [geoDistributedTaskStrategy, if_neg hgr]
    rw [hgeo]
    have hcov := geoAllocs_coverage constraints requirements.estimatedHours
      (if Int.tdiv requirements.gpus 1 = 0 then 1
       else Int.tdiv requirements.gpus 1)
      (if Int.tdiv (if Int.tdiv requirements.gpus 1 = 0 then 1
          else Int.tdiv requirements.gpus 1)
          ((groupByRegion candidates).length : Int) = 0 then 1
       else Int.tdiv (if Int.tdiv requirements.gpus 1 = 0 then 1
          else Int.tdiv requirements.gpus 1)
          ((groupByRegion candidates).length : Int))
      (groupByRegion candidates).length candidates hg htype
      (groupByRegion candidates) 0 hgs
    have hsum := taskSum_suffix
      (if Int.tdiv requirements.gpus 1 = 0 then 1
       else Int.tdiv requirements.gpus 1)
      (if Int.tdiv (if Int.tdiv requirements.gpus 1 = 0 then 1
          else Int.tdiv requirements.gpus 1)
          ((groupByRegion candidates).length : Int) = 0 then 1
       else Int.tdiv (if Int.tdiv requirements.gpus 1 = 0 then 1
          else Int.tdiv requirements.gpus 1)
          ((groupByRegion candidates).length : Int))
      (groupByRegion candidates).length (groupByRegion candidates) 0
      (by intro h; rw [h] at hgr; simp at hgr) (by simp)
    have htot : requirements.gpus ≤
        (if Int.tdiv requirements.gpus 1 = 0 then 1
         else Int.tdiv requirements.gpus 1) := by
      rw [Int.tdiv_one]
      by_cases h0 : requirements.gpus = 0
      · rw [if_pos h0, h0]; omega
      · rw [if_neg h0]
    rw [hsum] at hcov
    have hring : (((groupByRegion candidates).length : Int) - 1) *
        (if Int.tdiv (if Int.tdiv requirements.gpus 1 = 0 then 1
            else Int.tdiv requirements.gpus 1)
            ((groupByRegion candidates).length : Int) = 0 then 1
         else Int.tdiv (if Int.tdiv requirements.gpus 1 = 0 then 1
            else Int.tdiv requirements.gpus 1)
            ((groupByRegion candidates).length : Int)) =
        (if Int.tdiv (if Int.tdiv requirements.gpus 1 = 0 then 1
            else Int.tdiv requirements.gpus 1)
            ((groupByRegion candidates).length : Int) = 0 then 1
         else Int.tdiv (if Int.tdiv requirements.gpus 1 = 0 then 1
            else Int.tdiv requirements.gpus 1)
            ((groupByRegion candidates).length : Int)) *
        (((groupByRegion candidates).length : Int) - 1) := by ring
    omega

/-- C3 (amended): with positive per-type GPU counts, the shared greedy
allocator's non-empty plans cover `requirements.gpus` and all its emitted
allocations have `count > 0`, and it returns an empty plan whenever GPUs
remain uncovered; the geo-distributed generator's non-empty plans also
cover `requirements.gpus`, but its allocations may have `count ≤ 0` (see
the counterexample), so the "every emitted Allocation has count > 0" part
of the claim fails. -/
theorem C3_amended (requirements : JobRequirements)
    (constraints : JobConstraints) (candidates : List GPUInstance)
    (hg : ∀ c ∈ candidates, 0 < c.gpusPerInstance)
    (htype : ∀ c1 ∈ candidates, ∀ c2 ∈ candidates,
      c1.instanceType = c2.instanceType →
      c1.gpusPerInstance = c2.gpusPerInstance) :
    ((cheapestStrategy requirements constraints candidates).allocation ≠ [] →
      requirements.gpus ≤ covered candidates
        (cheapestStrategy requirements constraints candidates).allocation ∧
      ∀ a ∈ (cheapestStrategy requirements constraints
        candidates).allocation, 0 < a.count) ∧
    (0 < (greedyLoop requirements constraints requirements.gpus
        (sortB (cheapestLess constraints.allowSpot)
          (effectiveCands requirements candidates))).2 →
      (cheapestStrategy requirements constraints candidates).allocation = []) ∧
    ((geoDistributedTaskStrategy requirements constraints
        candidates).allocation ≠ [] →
      requirements.gpus ≤ covered candidates
        (geoDistributedTaskStrategy requirements constraints
          candidates).allocation) := by
  obtain ⟨h1, h2⟩ := cheapestStrategy_spec requirements constraints
    candidates hg htype
  exact ⟨h1, h2, geoDistributed_coverage requirements constraints
    candidates hg htype⟩

/-- C3 amended, witnessed: on the single 8-GPU candidate, both the greedy
allocator's plan and the geo-distributed plan cover the 8 requested GPUs. -/
theorem C3_amended_witness :
    req1.gpus ≤ covered [inst1]
      (cheapestStrategy req1 cons1 [inst1]).allocation ∧
    req1.gpus ≤ covered [inst1]
      (geoDistributedTaskStrategy req1 cons1 [inst1]).allocation := by
  have h := C3_amended req1 cons1 [inst1]
    (by intro c hc; fin_cases hc; simp [inst1])
    (by intro c1 h1 c2 h2; fin_cases h1; fin_cases h2; simp)
  refine ⟨(h.1 ?_).1, h.2.2 ?_⟩
  · simp [cheapestStrategy, effectiveCands, filterMultiNodeCompatible,
      sortB, insertB, cheapestLess, effPricePerGPU, greedyLoop,
      getMaxNodesForProvider, Strategy.empty, inst1, req1, cons1, Int.tdiv]
  · simp [geoDistributedTaskStrategy, geoAllocs, groupByRegion,
      insertGroup, regionKey, sortB, insertB, geoLess, splitOnChar,
      splitCharsAux, req1, cons1, inst1, Strategy.empty, Int.tdiv]

/-- `scheduler.QueuedJob`'s ordering-relevant fields (`Priority` is
computed by `calculatePriority` but never read by `Less`). -/
structure QueuedJob where
  id : String
  deadline : Option Int
  maxBudget : ℚ
  createdAt : Int
  deriving Repr, DecidableEq

/-- `JobQueue.Less`: deadline `Before` when both are set, a deadline
outranks none, otherwise lower `MaxBudget`.  `created_at` is not
consulted. -/
def jobLess (a b : QueuedJob) : Bool :=
  match a.deadline, b.deadline with
  | some da, some db => da < db
  | some _, none => true
  | none, some _ => false
  | none, none => a.maxBudget < b.maxBudget

/-- Bounds-safe swap (all call sites of `container/heap` stay in bounds). -/
def aswap (a : Array α) (i j : Nat) : Array α :=
  if h : i < a.size ∧ j < a.size then a.swap ⟨i, h.1⟩ ⟨j, h.2⟩ else a

/-- `h.Less(i, j)` on the backing array, false out of bounds. -/
def lessAt (less : α → α → Bool) (a : Array α) (i j : Nat) : Bool :=
  match a[i]?, a[j]? with
  | some x, some y => less x y
  | _, _ => false

/-- `container/heap`'s `up`: sift index `j` towards the root. -/
def upHeap (less : α → α → Bool) (a : Array α) : Nat → Array α
  | 0 => a
  | j + 1 =>
      if lessAt less a (j + 1) (j / 2) then
        upHeap less (aswap a (j / 2) (j + 1)) (j / 2)
      else a
  termination_by j => j
  decreasing_by
    have := Nat.div_le_self j 2
    omega

/-- `container/heap`'s `down`: sift index `i` towards the leaves, within
the prefix `[0, n)`. -/
def downHeap (less : α → α → Bool) (a : Array α) (i n : Nat) : Array α :=
  if _ : 2 * i + 1 < n then
    let j :=
      if 2 * i + 1 + 1 < n ∧ lessAt less a (2 * i + 1 + 1) (2 * i + 1) then
        2 * i + 1 + 1
      else 2 * i + 1
    if lessAt less a j i then downHeap less (aswap a i j) j n else a
  else a
  termination_by n - i
  decreasing_by
    split <;> omega

/-- `heap.Push`: append, then sift the new last element up. -/
def heapPush (less : α → α → Bool) (a : Array α) (x : α) : Array α :=
  upHeap less (a.push x) a.size

/-- `heap.Pop` wrapped by `JobQueue.PopJob`: `nil` on an empty queue,
else swap the root with the last slot, sift down over the shortened
prefix, and remove and return the last slot. -/
def heapPop (less : α → α → Bool) (a : Array α) : Option α × Array α :=
  if a.size = 0 then (none, a)
  else
    let n := a.size - 1
    let a2 := downHeap less (aswap a 0 n) 0 n
    (a2[n]?, a2.pop)

/-- Pop repeatedly (`fuel` bounds the number of pops). -/
def popAllFuel (less : α → α → Bool) : Nat → Array α → List α
  | 0, _ => []
  | fuel + 1, a =>
      match heapPop less a with
      | (some x, a') => x :: popAllFuel less fuel a'
      | (none, _) => []

/-- Drain the queue completely. -/
def popAll (less : α → α → Bool) (a : Array α) : List α :=
  popAllFuel less a.size a

/-- Enqueue a list of jobs into a fresh queue (`heap.Push` per job). -/
def enqueueAll (less : α → α → Bool) (jobs : List α) : Array α :=
  jobs.foldl (heapPush less) #[]

/-- The binary-min-heap ordering property on the prefix `[0, n)`. -/
def heapProp (less : α → α → Bool) (a : Array α) (n : Nat) : Prop :=
  ∀ j, 0 < j → j < n → lessAt less a j ((j - 1) / 2) = false

theorem aswap_size (a : Array α) (i j : Nat) :
    (aswap a i j).size = a.size := by
  unfold aswap
  split
  · simp
  · rfl

theorem arr_mem_iff (a : Array α) (x : α) :
    x ∈ a.toList ↔ ∃ i, ∃ _ : i < a.size, a[i] = x := by
  constructor
  · intro h
    obtain ⟨i, hi, he⟩ := List.mem_iff_getElem.mp h
    have hi' : i < a.size := by simpa using hi
    exact ⟨i, hi', by rw [Array.getElem_eq_getElem_toList]; exact he⟩
  · rintro ⟨i, hi, rfl⟩
    exact Array.getElem_mem_toList a hi

theorem aswap_get_left (a : Array α) (i j : Nat)
    (hi : i < a.size) (hj : j < a.size) : (aswap a i j)[i]? = a[j]? := by
  unfold aswap
  rw [dif_pos ⟨hi, hj⟩]
  rw [Array.getElem?_lt _ (by simp [hi]), Array.getElem?_lt _ hj]
  congr 1
  exact Array.getElem_swap_left a

theorem aswap_get_right (a : Array α) (i j : Nat)
    (hi : i < a.size) (hj : j < a.size) : (aswap a i j)[j]? = a[i]? := by
  unfold aswap
  rw [dif_pos ⟨hi, hj⟩]
  rw [Array.getElem?_lt _ (by simp [hj]), Array.getElem?_lt _ hi]
  congr 1
  exact Array.getElem_swap_right a

theorem aswap_get_other (a : Array α) (i j k : Nat)
    (hki : k ≠ i) (hkj : k ≠ j) : (aswap a i j)[k]? = a[k]? := by
  unfold aswap
  split
  · rename_i h
    by_cases hk : k < a.size
    · rw [Array.getElem?_lt _ (by simp [hk]), Array.getElem?_lt _ hk]
      congr 1
      exact Array.getElem_swap_of_ne a _ hki hkj
    · rw [Array.getElem?_ge _ (by simp; omega), Array.getElem?_ge _ (by omega)]
  · rfl

theorem mem_aswap (a : Array α) (i j : Nat) (x : α)
    (h : x ∈ (aswap a i j).toList) : x ∈ a.toList := by
  obtain ⟨k, hk, he⟩ := (arr_mem_iff _ _).mp h
  have hk' : k < a.size := by rw [← aswap_size a i j]; exact hk
  by_cases hin : i < a.size ∧ j < a.size
  · by_cases hki : k = i
    · subst hki
      have := aswap_get_left a k j hk' hin.2
      rw [Array.getElem?_lt _ hk, Array.getElem?_lt _ hin.2] at this
      rw [(arr_mem_iff _ _)]
      exact ⟨j, hin.2, by rw [← Option.some_inj.mp this]; exact he⟩
    · by_cases hkj : k = j
      · subst hkj
        have := aswap_get_right a i k hin.1 hk'
        rw [Array.getElem?_lt _ hk, Array.getElem?_lt _ hin.1] at this
        rw [(arr_mem_iff _ _)]
        exact ⟨i, hin.1, by rw [← Option.some_inj.mp this]; exact he⟩
      · have := aswap_get_other a i j k hki hkj
        rw [Array.getElem?_lt _ hk, Array.getElem?_lt _ hk'] at this
        rw [(arr_mem_iff _ _)]
        exact ⟨k, hk', by rw [← Option.some_inj.mp this]; exact he⟩
  · unfold aswap at h
    rw [dif_neg hin] at h
    exact h

theorem lessAt_congr (less : α → α → Bool) (a b : Array α)
    (i j i' j' : Nat) (h1 : a[i]? = b[i']?) (h2 : a[j]? = b[j']?) :
    lessAt less a i j = lessAt less b i' j' := by
  unfold lessAt
  rw [h1, h2]

theorem lessAt_eq (less : α → α → Bool) (a : Array α) (i j : Nat)
    (hi : i < a.size) (hj : j < a.size) :
    lessAt less a i j = less a[i] a[j] := by
  unfold lessAt
  rw [Array.getElem?_lt _ hi, Array.getElem?_lt _ hj]

theorem less_asymm (less : α → α → Bool)
    (hirr : ∀ x, less x x = false)
    (htr : ∀ x y z, less x y = true → less y z = true → less x z = true)
    (x y : α) (h : less x y = true) : less y x = false := by
  by_cases c : less y x = true
  · have := htr x y x h c
    rw [hirr x] at this
    exact absurd this (by simp)
  · simpa using c

theorem less_m1 (less : α → α → Bool)
    (htr : ∀ x y z, less x y = true → less y z = true → less x z = true)
    (x y z : α) (hxy : less x y = true) (hzy : less z y = false) :
    less z x = false := by
  by_cases c : less z x = true
  · have := htr z x y c hxy
    rw [this] at hzy
    exact absurd hzy (by simp)
  · simpa using c

theorem lessAt_true_bounds (less : α → α → Bool) (a : Array α) (i j : Nat)
    (h : lessAt less a i j = true) : i < a.size ∧ j < a.size := by
  unfold lessAt at h
  constructor
  · by_contra hi
    rw [Array.getElem?_ge a (by omega : a.size ≤ i)] at h
    exact absurd h (by simp)
  · by_contra hj
    rw [Array.getElem?_ge a (by omega : a.size ≤ j)] at h
    rcases hx : a[i]? with _ | x <;> rw [hx] at h <;> exact absurd h (by simp)

theorem lessAt_asymm (less : α → α → Bool)
    (hirr : ∀ x, less x x = false)
    (htr : ∀ x y z, less x y = true → less y z = true → less x z = true)
    (a : Array α) (i j : Nat) (h : lessAt less a i j = true) :
    lessAt less a j i = false := by
  obtain ⟨hi, hj⟩ := lessAt_true_bounds less a i j h
  rw [lessAt_eq less a i j hi hj] at h
  rw [lessAt_eq less a j i hj hi]
  exact less_asymm less hirr htr _ _ h

theorem lessAt_trans (less : α → α → Bool)
    (htr : ∀ x y z, less x y = true → less y z = true → less x z = true)
    (a : Array α) (i j k : Nat) (h1 : lessAt less a i j = true)
    (h2 : lessAt less a j k = true) : lessAt less a i k = true := by
  obtain ⟨hi, hj⟩ := lessAt_true_bounds less a i j h1
  obtain ⟨-, hk⟩ := lessAt_true_bounds less a j k h2
  rw [lessAt_eq less a i j hi hj] at h1
  rw [lessAt_eq less a j k hj hk] at h2
  rw [lessAt_eq less a i k hi hk]
  exact htr _ _ _ h1 h2

theorem lessAt_m1 (less : α → α → Bool)
    (htr : ∀ x y z, less x y = true → less y z = true → less x z = true)
    (a : Array α) (i j k : Nat) (hxy : lessAt less a i j = true)
    (hzy : lessAt less a k j = false) : lessAt less a k i = false := by
  by_cases c : lessAt less a k i = true
  · rw [lessAt_trans less htr a k i j c hxy] at hzy
    exact absurd hzy (by simp)
  · simpa using c

theorem lessAt_neg (less : α → α → Bool)
    (hneg : ∀ x y z, less x y = false → less y z = false → less x z = false)
    (a : Array α) (i j k : Nat) (hj : j < a.size)
    (h1 : lessAt less a i j = false) (h2 : lessAt less a j k = false) :
    lessAt less a i k = false := by
  by_cases hi : i < a.size
  · by_cases hk : k < a.size
    · rw [lessAt_eq less a i j hi hj] at h1
      rw [lessAt_eq less a j k hj hk] at h2
      rw [lessAt_eq less a i k hi hk]
      exact hneg _ _ _ h1 h2
    · unfold lessAt
      rw [Array.getElem?_ge a (by omega : a.size ≤ k)]
      rcases hx : a[i]? with _ | x <;> rfl
  · unfold lessAt
    rw [Array.getElem?_ge a (by omega : a.size ≤ i)]

theorem root_min (less : α → α → Bool)
    (hirr : ∀ x, less x x = false)
    (hneg : ∀ x y z, less x y = false → less y z = false → less x z = false)
    (a : Array α) (n : Nat) (hp : heapProp less a n) (hn : n ≤ a.size)
    (h0 : 0 < n) : ∀ k, k < n → lessAt less a k 0 = false := by
  intro k
  induction k using Nat.strong_induction_on with
  | _ k ih =>
    intro hk
    by_cases hk0 : k = 0
    · subst hk0
      rw [lessAt_eq less a 0 0 (lt_of_lt_of_le h0 hn) (lt_of_lt_of_le h0 hn)]
      exact hirr _
    · have hkpos : 0 < k := Nat.pos_of_ne_zero hk0
      have hpar : (k - 1) / 2 < k := by
        have := Nat.div_le_self (k - 1) 2
        omega
      have h1 := hp k hkpos hk
      have h2 := ih ((k - 1) / 2) hpar (lt_trans hpar hk)
      exact lessAt_neg less hneg a k ((k - 1) / 2) 0
        (by have := lt_trans hpar hk; omega) h1 h2

/-- Loop invariant of `up`: the heap property holds everywhere except
possibly on the edge from `j` to its parent, and (aux clause) the
children of `j` are already `≥` the parent of `j`. -/
def upInv (less : α → α → Bool) (a : Array α) (n j : Nat) : Prop :=
  (∀ k, 0 < k → k < n → k ≠ j → lessAt less a k ((k - 1) / 2) = false) ∧
  (0 < j → ∀ k, k < n → (k = 2 * j + 1 ∨ k = 2 * j + 2) →
    lessAt less a k ((j - 1) / 2) = false)

theorem upHeap_spec (less : α → α → Bool)
    (hirr : ∀ x, less x x = false)
    (htr : ∀ x y z, less x y = true → less y z = true → less x z = true)
    (hneg : ∀ x y z, less x y = false → less y z = false → less x z = false) :
    ∀ (j : Nat) (a : Array α) (n : Nat), j < n → n ≤ a.size →
    upInv less a n j →
    heapProp less (upHeap less a j) n ∧ (upHeap less a j).size = a.size ∧
      ∀ x ∈ (upHeap less a j).toList, x ∈ a.toList := by
  intro j
  induction j using Nat.strong_induction_on with
  | _ j ih =>
    intro a n hj hn hinv
    cases j with
    | zero =>
      have heq0 : upHeap less a 0 = a := by rw [upHeap]
      rw [heq0]
      refine ⟨?_, rfl, fun x hx => hx⟩
      intro k hk0 hkn
      exact hinv.1 k hk0 hkn (by omega)
    | succ j' =>
      by_cases hc : lessAt less a (j' + 1) (j' / 2) = true
      · have hdiv : j' / 2 ≤ j' := Nat.div_le_self j' 2
        have hin : j' + 1 < a.size := lt_of_lt_of_le hj hn
        have hii : j' / 2 < a.size := by omega
        have gL := aswap_get_left a (j' / 2) (j' + 1) hii hin
        have gR := aswap_get_right a (j' / 2) (j' + 1) hii hin
        have gO : ∀ k, k ≠ j' / 2 → k ≠ j' + 1 →
            (aswap a (j' / 2) (j' + 1))[k]? = a[k]? :=
          fun k h1 h2 => aswap_get_other a (j' / 2) (j' + 1) k h1 h2
        have hs' : (aswap a (j' / 2) (j' + 1)).size = a.size :=
          aswap_size a (j' / 2) (j' + 1)
        have hinv' : upInv less (aswap a (j' / 2) (j' + 1)) n (j' / 2) := by
          constructor
          · intro k hk0 hkn hki
            by_cases hkj : k = j' + 1
            · subst hkj
              rw [(by omega : (j' + 1 - 1) / 2 = j' / 2)]
              rw [lessAt_congr less (aswap a (j' / 2) (j' + 1)) a
                (j' + 1) (j' / 2) (j' / 2) (j' + 1) gR gL]
              exact lessAt_asymm less hirr htr a (j' + 1) (j' / 2) hc
            · by_cases hpi : (k - 1) / 2 = j' / 2
              · rw [hpi]
                rw [lessAt_congr less (aswap a (j' / 2) (j' + 1)) a
                  k (j' / 2) k (j' + 1) (gO k hki hkj) gL]
                have hold := hinv.1 k hk0 hkn hkj
                rw [hpi] at hold
                exact lessAt_m1 less htr a (j' + 1) (j' / 2) k hc hold
              · by_cases hpj : (k - 1) / 2 = j' + 1
                · rw [hpj]
                  rw [lessAt_congr less (aswap a (j' / 2) (j' + 1)) a
                    k (j' + 1) k (j' / 2) (gO k hki hkj) gR]
                  have hch : k = 2 * (j' + 1) + 1 ∨ k = 2 * (j' + 1) + 2 := by
                    omega
                  have hres := hinv.2 (by omega) k hkn hch
                  rwa [(by omega : (j' + 1 - 1) / 2 = j' / 2)] at hres
                · rw [lessAt_congr less (aswap a (j' / 2) (j' + 1)) a
                    k ((k - 1) / 2) k ((k - 1) / 2) (gO k hki hkj)
                    (gO _ hpi hpj)]
                  exact hinv.1 k hk0 hkn hkj
          · intro hi0 k hkn hch
            have hple : (j' / 2 - 1) / 2 ≤ j' / 2 - 1 :=
              Nat.div_le_self (j' / 2 - 1) 2
            have hpi : (j' / 2 - 1) / 2 ≠ j' / 2 := by omega
            have hpj : (j' / 2 - 1) / 2 ≠ j' + 1 := by omega
            by_cases hkj : k = j' + 1
            · subst hkj
              rw [lessAt_congr less (aswap a (j' / 2) (j' + 1)) a
                (j' + 1) ((j' / 2 - 1) / 2) (j' / 2) ((j' / 2 - 1) / 2)
                gR (gO _ hpi hpj)]
              exact hinv.1 (j' / 2) hi0 (by omega) (by omega)
            · have hki : k ≠ j' / 2 := by omega
              rw [lessAt_congr less (aswap a (j' / 2) (j' + 1)) a
                k ((j' / 2 - 1) / 2) k ((j' / 2 - 1) / 2)
                (gO k hki hkj) (gO _ hpi hpj)]
              have h1 : lessAt less a k (j' / 2) = false := by
                have hres := hinv.1 k (by omega) hkn hkj
                rwa [(by omega : (k - 1) / 2 = j' / 2)] at hres
              have h2 : lessAt less a (j' / 2) ((j' / 2 - 1) / 2) = false :=
                hinv.1 (j' / 2) hi0 (by omega) (by omega)
              exact lessAt_neg less hneg a k (j' / 2) ((j' / 2 - 1) / 2)
                hii h1 h2
        obtain ⟨hH, hS, hM⟩ := ih (j' / 2) (by omega)
          (aswap a (j' / 2) (j' + 1)) n (by omega) (by omega) hinv'
        have heq : upHeap less a (j' + 1) =
            upHeap less (aswap a (j' / 2) (j' + 1)) (j' / 2) := by
          rw [upHeap]
          exact if_pos hc
        rw [heq]
        exact ⟨hH, by rw [hS, hs'],
          fun x hx => mem_aswap a (j' / 2) (j' + 1) x (hM x hx)⟩
      · have heq : upHeap less a (j' + 1) = a := by
          rw [upHeap]
          exact if_neg hc
        rw [heq]
        refine ⟨?_, rfl, fun x hx => hx⟩
        intro k hk0 hkn
        by_cases hkj : k = j' + 1
        · subst hkj
          rw [(by omega : (j' + 1 - 1) / 2 = j' / 2)]
          simpa using hc
        · exact hinv.1 k hk0 hkn hkj

/-- Loop invariant of `down`: the heap property holds on every edge whose
child's parent is not `i`, and (aux clause) the children of `i` are
already `≥` the parent of `i`. -/
def downInv (less : α → α → Bool) (a : Array α) (n i : Nat) : Prop :=
  (∀ k, 0 < k → k < n → (k - 1) / 2 ≠ i → lessAt less a k ((k - 1) / 2) = false) ∧
  (0 < i → ∀ k, k < n → (k = 2 * i + 1 ∨ k = 2 * i + 2) →
    lessAt less a k ((i - 1) / 2) = false)

theorem down_step (less : α → α → Bool)
    (hirr : ∀ x, less x x = false)
    (htr : ∀ x y z, less x y = true → less y z = true → less x z = true)
    (a : Array α) (n i j : Nat)
    (hn : n ≤ a.size) (hij : i < j) (hjn : j < n) (hpar : (j - 1) / 2 = i)
    (hsib : ∀ s, s < n → (s = 2 * i + 1 ∨ s = 2 * i + 2) → s ≠ j →
      lessAt less a s j = false)
    (hc : lessAt less a j i = true)
    (hinv : downInv less a n i) : downInv less (aswap a i j) n j := by
  have hi_lt : i < a.size := by omega
  have hj_lt : j < a.size := by omega
  have gL := aswap_get_left a i j hi_lt hj_lt
  have gR := aswap_get_right a i j hi_lt hj_lt
  have gO : ∀ k, k ≠ i → k ≠ j → (aswap a i j)[k]? = a[k]? :=
    fun k h1 h2 => aswap_get_other a i j k h1 h2
  have hjch : j = 2 * i + 1 ∨ j = 2 * i + 2 := by omega
  constructor
  · intro k hk0 hkn hguard
    by_cases hkj : k = j
    · subst hkj
      rw [hpar]
      rw [lessAt_congr less (aswap a i k) a k i i k gR gL]
      exact lessAt_asymm less hirr htr a k i hc
    · by_cases hki : k = i
      · subst hki
        have hpi : (k - 1) / 2 ≠ k := by
          have := Nat.div_le_self (k - 1) 2; omega
        have hpj : (k - 1) / 2 ≠ j := by
          have := Nat.div_le_self (k - 1) 2; omega
        rw [lessAt_congr less (aswap a k j) a k ((k - 1) / 2) j ((k - 1) / 2)
          gL (gO _ hpi hpj)]
        exact hinv.2 hk0 j hjn hjch
      · by_cases hpik : (k - 1) / 2 = i
        · rw [hpik]
          rw [lessAt_congr less (aswap a i j) a k i k j (gO k hki hkj) gL]
          exact hsib k hkn (by omega) hkj
        · rw [lessAt_congr less (aswap a i j) a k ((k - 1) / 2) k ((k - 1) / 2)
            (gO k hki hkj) (gO _ hpik hguard)]
          exact hinv.1 k hk0 hkn hpik
  · intro _ k hkn hch
    rw [hpar]
    have hki : k ≠ i := by omega
    have hkj : k ≠ j := by omega
    rw [lessAt_congr less (aswap a i j) a k i k j (gO k hki hkj) gL]
    have hpk : (k - 1) / 2 = j := by omega
    have hres := hinv.1 k (by omega) hkn (by omega)
    rwa [hpk] at hres

theorem downHeap_spec (less : α → α → Bool)
    (hirr : ∀ x, less x x = false)
    (htr : ∀ x y z, less x y = true → less y z = true → less x z = true)
    (hneg : ∀ x y z, less x y = false → less y z = false → less x z = false)
    (n : Nat) :
    ∀ (d i : Nat) (a : Array α), n - i ≤ d → n ≤ a.size →
    downInv less a n i →
    heapProp less (downHeap less a i n) n ∧
    (downHeap less a i n).size = a.size ∧
    (∀ x ∈ (downHeap less a i n).toList, x ∈ a.toList) ∧
    (∀ k, n ≤ k → (downHeap less a i n)[k]? = a[k]?) := by
  intro d
  induction d with
  | zero =>
    intro i a hd hn hinv
    have h1 : ¬ 2 * i + 1 < n := by omega
    have heq : downHeap less a i n = a := by rw [downHeap]; exact dif_neg h1
    rw [heq]
    refine ⟨?_, rfl, fun x hx => hx, fun k _ => rfl⟩
    intro k hk0 hkn
    refine hinv.1 k hk0 hkn ?_
    have := Nat.div_le_self (k - 1) 2
    omega
  | succ d ih =>
    intro i a hd hn hinv
    by_cases h1 : 2 * i + 1 < n
    · have heq0 : downHeap less a i n =
          if lessAt less a (if 2 * i + 1 + 1 < n ∧
              lessAt less a (2 * i + 1 + 1) (2 * i + 1) = true then 2 * i + 1 + 1
            else 2 * i + 1) i = true then
            downHeap less
              (aswap a i (if 2 * i + 1 + 1 < n ∧
                  lessAt less a (2 * i + 1 + 1) (2 * i + 1) = true then
                  2 * i + 1 + 1
                else 2 * i + 1))
              (if 2 * i + 1 + 1 < n ∧
                  lessAt less a (2 * i + 1 + 1) (2 * i + 1) = true then
                  2 * i + 1 + 1
                else 2 * i + 1) n
          else a := by
        rw [downHeap]
        rw [dif_pos h1]
      by_cases h2 : 2 * i + 1 + 1 < n ∧
          lessAt less a (2 * i + 1 + 1) (2 * i + 1) = true
      · rw [if_pos h2] at heq0
        by_cases hc : lessAt less a (2 * i + 1 + 1) i = true
        · rw [if_pos hc] at heq0
          have hstep : downInv less (aswap a i (2 * i + 1 + 1)) n
              (2 * i + 1 + 1) := by
            refine down_step less hirr htr a n i (2 * i + 1 + 1) hn (by omega)
              h2.1 (by omega) ?_ hc hinv
            intro s hsn hsch hsj
            have hs : s = 2 * i + 1 := by omega
            subst hs
            exact lessAt_asymm less hirr htr a (2 * i + 1 + 1) (2 * i + 1) h2.2
          obtain ⟨hH, hS, hM, hO⟩ := ih (2 * i + 1 + 1)
            (aswap a i (2 * i + 1 + 1)) (by omega)
            (by rw [aswap_size]; exact hn) hstep
          rw [heq0]
          refine ⟨hH, by rw [hS, aswap_size],
            fun x hx => mem_aswap a _ _ x (hM x hx), ?_⟩
          intro k hk
          rw [hO k hk]
          exact aswap_get_other a i (2 * i + 1 + 1) k (by omega) (by omega)
        · rw [if_neg hc] at heq0
          rw [heq0]
          refine ⟨?_, rfl, fun x hx => hx, fun k _ => rfl⟩
          intro k hk0 hkn
          by_cases hpik : (k - 1) / 2 = i
          · rw [hpik]
            have hch : k = 2 * i + 1 ∨ k = 2 * i + 1 + 1 := by omega
            rcases hch with hch | hch
            · subst hch
              by_cases cc : lessAt less a (2 * i + 1) i = true
              · exact absurd
                  (lessAt_trans less htr a (2 * i + 1 + 1) (2 * i + 1) i
                    h2.2 cc) hc
              · simpa using cc
            · subst hch
              simpa using hc
          · exact hinv.1 k hk0 hkn hpik
      · rw [if_neg h2] at heq0
        have h2' : 2 * i + 1 + 1 < n →
            lessAt less a (2 * i + 1 + 1) (2 * i + 1) = false := by
          intro hlt
          rcases Bool.eq_false_or_eq_true
            (lessAt less a (2 * i + 1 + 1) (2 * i + 1)) with hb | hb
          · exact absurd ⟨hlt, hb⟩ h2
          · exact hb
        by_cases hc : lessAt less a (2 * i + 1) i = true
        · rw [if_pos hc] at heq0
          have hstep : downInv less (aswap a i (2 * i + 1)) n
              (2 * i + 1) := by
            refine down_step less hirr htr a n i (2 * i + 1) hn (by omega)
              h1 (by omega) ?_ hc hinv
            intro s hsn hsch hsj
            have hs : s = 2 * i + 1 + 1 := by omega
            subst hs
            exact h2' hsn
          obtain ⟨hH, hS, hM, hO⟩ := ih (2 * i + 1)
            (aswap a i (2 * i + 1)) (by omega)
            (by rw [aswap_size]; exact hn) hstep
          rw [heq0]
          refine ⟨hH, by rw [hS, aswap_size],
            fun x hx => mem_aswap a _ _ x (hM x hx), ?_⟩
          intro k hk
          rw [hO k hk]
          exact aswap_get_other a i (2 * i + 1) k (by omega) (by omega)
        · rw [if_neg hc] at heq0
          rw [heq0]
          refine ⟨?_, rfl, fun x hx => hx, fun k _ => rfl⟩
          intro k hk0 hkn
          by_cases hpik : (k - 1) / 2 = i
          · rw [hpik]
            have hch : k = 2 * i + 1 ∨ k = 2 * i + 1 + 1 := by omega
            rcases hch with hch | hch
            · subst hch
              simpa using hc
            · subst hch
              have hmid : 2 * i + 1 < a.size := by omega
              exact lessAt_neg less hneg a (2 * i + 1 + 1) (2 * i + 1) i hmid
                (h2' hkn) (by simpa using hc)
          · exact hinv.1 k hk0 hkn hpik
    · have heq : downHeap less a i n = a := by rw [downHeap]; exact dif_neg h1
      rw [heq]
      refine ⟨?_, rfl, fun x hx => hx, fun k _ => rfl⟩
      intro k hk0 hkn
      refine hinv.1 k hk0 hkn ?_
      omega

theorem pop_getElem_eq (a : Array α) (k : Nat) (hk : k < a.size - 1) :
    a.pop[k]? = a[k]? := by
  have h1 : k < a.pop.size := by rw [Array.size_pop]; omega
  have h2 : k < a.size := by omega
  rw [Array.getElem?_lt _ h1, Array.getElem?_lt _ h2]
  exact congrArg some (Array.getElem_pop a k h1)

theorem heapPush_spec (less : α → α → Bool)
    (hirr : ∀ x, less x x = false)
    (htr : ∀ x y z, less x y = true → less y z = true → less x z = true)
    (hneg : ∀ x y z, less x y = false → less y z = false → less x z = false)
    (a : Array α) (x : α) (hp : heapProp less a a.size) :
    heapProp less (heapPush less a x) (a.size + 1) ∧
    (heapPush less a x).size = a.size + 1 ∧
    (∀ y ∈ (heapPush less a x).toList, y ∈ a.toList ∨ y = x) := by
  have hsz : (a.push x).size = a.size + 1 := Array.size_push a x
  have hinv : upInv less (a.push x) (a.size + 1) a.size := by
    constructor
    · intro k hk0 hkn hkj
      have hk : k < a.size := by omega
      have hpk : (k - 1) / 2 < a.size := by
        have := Nat.div_le_self (k - 1) 2; omega
      have g1 : (a.push x)[k]? = a[k]? := by
        rw [Array.getElem?_lt _ (by omega : k < (a.push x).size),
          Array.getElem?_lt _ hk]
        exact congrArg some (Array.getElem_push_lt a x k hk)
      have g2 : (a.push x)[(k - 1) / 2]? = a[(k - 1) / 2]? := by
        rw [Array.getElem?_lt _ (by omega : (k - 1) / 2 < (a.push x).size),
          Array.getElem?_lt _ hpk]
        exact congrArg some (Array.getElem_push_lt a x ((k - 1) / 2) hpk)
      rw [lessAt_congr less (a.push x) a k ((k - 1) / 2) k ((k - 1) / 2) g1 g2]
      exact hp k hk0 hk
    · intro _ k hkn hch
      omega
  obtain ⟨hH, hS, hM⟩ := upHeap_spec less hirr htr hneg a.size (a.push x)
    (a.size + 1) (by omega) (by omega) hinv
  unfold heapPush
  refine ⟨hH, by rw [hS, hsz], ?_⟩
  intro y hy
  have hy2 : y ∈ (a.push x).toList := hM y hy
  obtain ⟨k, hk, he⟩ := (arr_mem_iff _ _).mp hy2
  by_cases hks : k < a.size
  · left
    refine (arr_mem_iff a y).mpr ⟨k, hks, ?_⟩
    rw [← he]
    exact (Array.getElem_push_lt a x k hks).symm
  · right
    have hke : k = a.size := by
      rw [Array.size_push] at hk; omega
    subst hke
    rw [← he]
    exact Array.getElem_push_eq a x

theorem foldl_heapPush_spec (less : α → α → Bool)
    (hirr : ∀ x, less x x = false)
    (htr : ∀ x y z, less x y = true → less y z = true → less x z = true)
    (hneg : ∀ x y z, less x y = false → less y z = false → less x z = false) :
    ∀ (l : List α) (a : Array α), heapProp less a a.size →
    heapProp less (l.foldl (heapPush less) a) (l.foldl (heapPush less) a).size := by
  intro l
  induction l with
  | nil =>
    intro a hp
    simpa only [List.foldl] using hp
  | cons y l ih =>
    intro a hp
    simp only [List.foldl]
    refine ih (heapPush less a y) ?_
    obtain ⟨h1, h2, -⟩ := heapPush_spec less hirr htr hneg a y hp
    rw [h2]
    exact h1

theorem enqueueAll_spec (less : α → α → Bool)
    (hirr : ∀ x, less x x = false)
    (htr : ∀ x y z, less x y = true → less y z = true → less x z = true)
    (hneg : ∀ x y z, less x y = false → less y z = false → less x z = false)
    (jobs : List α) :
    heapProp less (enqueueAll less jobs) (enqueueAll less jobs).size := by
  unfold enqueueAll
  refine foldl_heapPush_spec less hirr htr hneg jobs #[] ?_
  intro k hk0 hk
  have hz : (#[] : Array α).size = 0 := rfl
  omega

theorem heapPop_spec (less : α → α → Bool)
    (hirr : ∀ x, less x x = false)
    (htr : ∀ x y z, less x y = true → less y z = true → less x z = true)
    (hneg : ∀ x y z, less x y = false → less y z = false → less x z = false)
    (a : Array α) (h0 : a.size ≠ 0) (hp : heapProp less a a.size) :
    ∃ x rest, heapPop less a = (some x, rest) ∧
      a[0]? = some x ∧
      rest.size = a.size - 1 ∧
      heapProp less rest rest.size ∧
      (∀ y ∈ rest.toList, y ∈ a.toList) ∧
      x ∈ a.toList ∧
      (∀ y ∈ a.toList, less y x = false) := by
  have h0lt : 0 < a.size := Nat.pos_of_ne_zero h0
  have hnlt : a.size - 1 < a.size := by omega
  have hinv : downInv less (aswap a 0 (a.size - 1)) (a.size - 1) 0 := by
    constructor
    · intro k hk0 hkn hguard
      have hpk : (k - 1) / 2 < a.size - 1 := by
        have := Nat.div_le_self (k - 1) 2; omega
      have g1 : (aswap a 0 (a.size - 1))[k]? = a[k]? :=
        aswap_get_other a 0 (a.size - 1) k (by omega) (by omega)
      have g2 : (aswap a 0 (a.size - 1))[(k - 1) / 2]? = a[(k - 1) / 2]? :=
        aswap_get_other a 0 (a.size - 1) ((k - 1) / 2) hguard (by omega)
      rw [lessAt_congr less (aswap a 0 (a.size - 1)) a k ((k - 1) / 2)
        k ((k - 1) / 2) g1 g2]
      exact hp k hk0 (by omega)
    · intro hcontra
      omega
  obtain ⟨hH, hS, hM, hO⟩ := downHeap_spec less hirr htr hneg (a.size - 1)
    (a.size - 1) 0 (aswap a 0 (a.size - 1))
    (by omega) (by rw [aswap_size]; omega) hinv
  have hS' : (downHeap less (aswap a 0 (a.size - 1)) 0 (a.size - 1)).size
      = a.size := by
    rw [hS, aswap_size]
  have htop : (downHeap less (aswap a 0 (a.size - 1)) 0 (a.size - 1))[a.size - 1]?
      = a[0]? := by
    rw [hO (a.size - 1) (le_refl _)]
    exact aswap_get_right a 0 (a.size - 1) h0lt hnlt
  have hroot : a[0]? = some (a.get ⟨0, h0lt⟩) := Array.getElem?_lt a h0lt
  refine ⟨a.get ⟨0, h0lt⟩,
    (downHeap less (aswap a 0 (a.size - 1)) 0 (a.size - 1)).pop,
    ?_, hroot, ?_, ?_, ?_, ?_, ?_⟩
  · have heq : heapPop less a =
        ((downHeap less (aswap a 0 (a.size - 1)) 0 (a.size - 1))[a.size - 1]?,
         (downHeap less (aswap a 0 (a.size - 1)) 0 (a.size - 1)).pop) := by
      unfold heapPop
      rw [if_neg h0]
    rw [heq, htop, hroot]
  · rw [Array.size_pop, hS']
  · intro k hk0 hkn
    rw [Array.size_pop, hS'] at hkn
    have hpk : (k - 1) / 2 < a.size - 1 := by
      have := Nat.div_le_self (k - 1) 2; omega
    have g1 := pop_getElem_eq
      (downHeap less (aswap a 0 (a.size - 1)) 0 (a.size - 1)) k
      (by rw [hS']; omega)
    have g2 := pop_getElem_eq
      (downHeap less (aswap a 0 (a.size - 1)) 0 (a.size - 1)) ((k - 1) / 2)
      (by rw [hS']; omega)
    rw [lessAt_congr less
      (downHeap less (aswap a 0 (a.size - 1)) 0 (a.size - 1)).pop
      (downHeap less (aswap a 0 (a.size - 1)) 0 (a.size - 1))
      k ((k - 1) / 2) k ((k - 1) / 2) g1 g2]
    exact hH k hk0 hkn
  · intro y hy
    obtain ⟨k, hk, he⟩ := (arr_mem_iff _ _).mp hy
    have hk2 : k <
        (downHeap less (aswap a 0 (a.size - 1)) 0 (a.size - 1)).size := by
      rw [Array.size_pop] at hk; omega
    have hy2 : y ∈
        (downHeap less (aswap a 0 (a.size - 1)) 0 (a.size - 1)).toList := by
      refine (arr_mem_iff _ _).mpr ⟨k, hk2, ?_⟩
      rw [← he]
      exact (Array.getElem_pop
        (downHeap less (aswap a 0 (a.size - 1)) 0 (a.size - 1)) k hk).symm
    exact mem_aswap a 0 (a.size - 1) y (hM y hy2)
  · exact (arr_mem_iff a _).mpr ⟨0, h0lt, rfl⟩
  · intro y hy
    obtain ⟨k, hk, he⟩ := (arr_mem_iff a y).mp hy
    have hmin := root_min less hirr hneg a a.size hp (le_refl _) h0lt k hk
    rw [lessAt_eq less a k 0 hk h0lt] at hmin
    rw [he] at hmin
    exact hmin

theorem popAllFuel_sorted (less : α → α → Bool)
    (hirr : ∀ x, less x x = false)
    (htr : ∀ x y z, less x y = true → less y z = true → less x z = true)
    (hneg : ∀ x y z, less x y = false → less y z = false → less x z = false) :
    ∀ (fuel : Nat) (a : Array α), heapProp less a a.size →
    List.Chain' (fun x y => less y x = false) (popAllFuel less fuel a) ∧
    ∀ z ∈ popAllFuel less fuel a, z ∈ a.toList := by
  intro fuel
  induction fuel with
  | zero =>
    intro a _
    constructor
    · rw [popAllFuel]
      exact List.chain'_nil
    · intro z hz
      rw [popAllFuel] at hz
      simp at hz
  | succ fuel ih =>
    intro a hp
    by_cases h0 : a.size = 0
    · have heq : heapPop less a = (none, a) := by
        unfold heapPop
        rw [if_pos h0]
      have heq2 : popAllFuel less (fuel + 1) a = [] := by
        rw [popAllFuel, heq]
      rw [heq2]
      refine ⟨List.chain'_nil, ?_⟩
      intro z hz
      simp at hz
    · obtain ⟨x, rest, heq, hroot, hsz, hp', hsub, hxmem, hmin⟩ :=
        heapPop_spec less hirr htr hneg a h0 hp
      have heq2 : popAllFuel less (fuel + 1) a = x :: popAllFuel less fuel rest := by
        rw [popAllFuel, heq]
      obtain ⟨hch, hsub'⟩ := ih rest hp'
      rw [heq2]
      constructor
      · rw [List.chain'_cons']
        refine ⟨?_, hch⟩
        intro y hy
        have hym : y ∈ popAllFuel less fuel rest := List.mem_of_mem_head? hy
        exact hmin y (hsub y (hsub' y hym))
      · intro z hz
        rcases List.mem_cons.mp hz with hz | hz
        · rw [hz]; exact hxmem
        · exact hsub z (hsub' z hz)

theorem jobLess_irrefl : ∀ x : QueuedJob, jobLess x x = false := by
  intro x
  unfold jobLess
  rcases hx : x.deadline with _ | d
  · simp only [hx]
    simp
  · simp only [hx]
    simp

theorem jobLess_trans : ∀ x y z : QueuedJob, jobLess x y = true →
    jobLess y z = true → jobLess x z = true := by
  intro x y z h1 h2
  unfold jobLess at h1 h2 ⊢
  rcases hx : x.deadline with _ | dx <;>
    rcases hy : y.deadline with _ | dy <;>
      rcases hz : z.deadline with _ | dz <;>
        simp only [hx, hy, hz] at h1 h2 ⊢ <;>
          try simp at h1 h2 ⊢
  all_goals try omega
  all_goals linarith

theorem jobLess_negtrans : ∀ x y z : QueuedJob, jobLess x y = false →
    jobLess y z = false → jobLess x z = false := by
  intro x y z h1 h2
  unfold jobLess at h1 h2 ⊢
  rcases hx : x.deadline with _ | dx <;>
    rcases hy : y.deadline with _ | dy <;>
      rcases hz : z.deadline with _ | dz <;>
        simp only [hx, hy, hz] at h1 h2 ⊢ <;>
          try simp at h1 h2 ⊢
  all_goals try omega
  all_goals linarith

/-- Three queued jobs that tie on deadline and budget and arrive in
`createdAt` order. -/
def jqA : QueuedJob :=
  { id := "job-a", deadline := some 50, maxBudget := 100, createdAt := 1 }

def jqB : QueuedJob :=
  { id := "job-b", deadline := some 50, maxBudget := 100, createdAt := 2 }

def jqC : QueuedJob :=
  { id := "job-c", deadline := some 50, maxBudget := 100, createdAt := 3 }

/-- C4: counterexample. Three jobs with identical deadlines and identical
budgets, enqueued in creation order (`createdAt` 1, 2, 3), pop back as
job-a, job-c, job-b: the job created at 2 comes out after the job
created at 3, so ties are not resolved by earliest `created_at` (the
comparator never reads `CreatedAt`). -/
theorem C4_counterexample :
    popAll jobLess (enqueueAll jobLess [jqA, jqB, jqC]) = [jqA, jqC, jqB] ∧
    jqA.deadline = jqB.deadline ∧ jqB.deadline = jqC.deadline ∧
    jqA.maxBudget = jqB.maxBudget ∧ jqB.maxBudget = jqC.maxBudget ∧
    jqA.createdAt < jqB.createdAt ∧ jqB.createdAt < jqC.createdAt := by
  refine ⟨?_, rfl, rfl, rfl, rfl, by decide, by decide⟩
  have h1 : upHeap jobLess #[jqA] 0 = #[jqA] := by rw [upHeap]
  have h2 : upHeap jobLess #[jqA, jqB] 1 = #[jqA, jqB] := by
    rw [upHeap]
    rw [if_neg (by decide)]
  have h3 : upHeap jobLess #[jqA, jqB, jqC] 2 = #[jqA, jqB, jqC] := by
    rw [upHeap]
    rw [if_neg (by decide)]
  have pA : heapPush jobLess #[] jqA = #[jqA] := by
    unfold heapPush
    exact h1
  have pB : heapPush jobLess #[jqA] jqB = #[jqA, jqB] := by
    unfold heapPush
    exact h2
  have pC : heapPush jobLess #[jqA, jqB] jqC = #[jqA, jqB, jqC] := by
    unfold heapPush
    exact h3
  have hE : enqueueAll jobLess [jqA, jqB, jqC] = #[jqA, jqB, jqC] := by
    unfold enqueueAll
    simp only [List.foldl]
    rw [pA, pB, pC]
  have h4 : downHeap jobLess #[jqC, jqB, jqA] 0 2 = #[jqC, jqB, jqA] := by
    rw [downHeap]
    rw [dif_pos (by decide : 2 * 0 + 1 < 2)]
    rw [if_neg (by decide)]
  have h5 : downHeap jobLess #[jqB, jqC] 0 1 = #[jqB, jqC] := by
    rw [downHeap]
    rw [dif_neg (by decide : ¬ 2 * 0 + 1 < 1)]
  have h6 : downHeap jobLess #[jqB] 0 0 = #[jqB] := by
    rw [downHeap]
    rw [dif_neg (by decide : ¬ 2 * 0 + 1 < 0)]
  have popEq1 : heapPop jobLess #[jqA, jqB, jqC] = (some jqA, #[jqC, jqB]) := by
    unfold heapPop
    rw [if_neg (by decide)]
    show ((downHeap jobLess #[jqC, jqB, jqA] 0 2)[2]?,
      (downHeap jobLess #[jqC, jqB, jqA] 0 2).pop) = (some jqA, #[jqC, jqB])
    rw [h4]
    rfl
  have popEq2 : heapPop jobLess #[jqC, jqB] = (some jqC, #[jqB]) := by
    unfold heapPop
    rw [if_neg (by decide)]
    show ((downHeap jobLess #[jqB, jqC] 0 1)[1]?,
      (downHeap jobLess #[jqB, jqC] 0 1).pop) = (some jqC, #[jqB])
    rw [h5]
    rfl
  have popEq3 : heapPop jobLess #[jqB] = (some jqB, #[]) := by
    unfold heapPop
    rw [if_neg (by decide)]
    show ((downHeap jobLess #[jqB] 0 0)[0]?,
      (downHeap jobLess #[jqB] 0 0).pop) = (some jqB, #[])
    rw [h6]
    rfl
  unfold popAll
  rw [hE]
  show popAllFuel jobLess 3 #[jqA, jqB, jqC] = [jqA, jqC, jqB]
  rw [popAllFuel, popEq1]
  show jqA :: popAllFuel jobLess 2 #[jqC, jqB] = [jqA, jqC, jqB]
  rw [popAllFuel, popEq2]
  show jqA :: jqC :: popAllFuel jobLess 1 #[jqB] = [jqA, jqC, jqB]
  rw [popAllFuel, popEq3]
  show jqA :: jqC :: jqB :: popAllFuel jobLess 0 #[] = [jqA, jqC, jqB]
  rw [popAllFuel]

/-- C4 (amended): draining the queue built by pushing any list of jobs
yields a sequence that is non-decreasing in the code's comparator: no
popped job is strictly less (earlier deadline; or a deadline versus
none; or, among deadline-free jobs, a lower max budget) than its
predecessor. The comparator never consults `createdAt`, so equal-key
jobs carry no FIFO guarantee (see the counterexample). -/
theorem C4_amended (jobs : List QueuedJob) :
    List.Chain' (fun x y => jobLess y x = false)
      (popAll jobLess (enqueueAll jobLess jobs)) := by
  unfold popAll
  exact (popAllFuel_sorted jobLess jobLess_irrefl jobLess_trans
    jobLess_negtrans (enqueueAll jobLess jobs).size (enqueueAll jobLess jobs)
    (enqueueAll_spec jobLess jobLess_irrefl jobLess_trans
      jobLess_negtrans jobs)).1

end GpuOrch
